import Mathlib

/-!
# Verification of the taskette scheduling substrate

A shallow embedding of the core of the `taskette` preemptive kernel
(`src/taskette/src/scheduler.rs`, `timer.rs`, `futex.rs`, and the older
revision in `src/taskette/src/lib.rs`), together with proofs about the
scheduler invariants, the timer, and the futex wake path.

Modelling conventions:
* `usize` values (task ids, stack pointers) are `Nat`; the id allocator's
  `wrapping_add` is taken modulo `2 ^ 32` (the library targets 32-bit MCUs).
* The `u32` priority bitmap is a `Nat` kept below `2 ^ 32`; `u32::leading_zeros`
  is modelled by a fuel-based bit-length function.
* The `u64` tick counter is a `Nat` (the spec treats it as never wrapping).
* `heapless::FnvIndexMap` is modelled as an association list with bounded
  length; `insert` replaces in place when the key is present, appends when
  absent and there is room, and fails when the map is full.
* `heapless::Deque` is modelled as a `List` with an explicit capacity check on
  `push_back`.
* `heapless::BinaryHeap<_, Min, N>` (an external library type) is modelled by
  its min-heap contract: an insertion-ordered sorted list keyed on `time`,
  `peek`/`pop` working on the head.  Ties between equal keys are broken by
  insertion order in the model (the real heap leaves tie order unspecified).
* Rust panics (`panic!`, `unreachable!`, the `31 - leading_zeros` underflow on
  an empty bitmap, out-of-range queue indexing) are modelled as `none`: such a
  call has no successor state.
* Hardware effects (`yield_now`, which only pends the context-switch
  exception) do not change the modelled state.
-/

namespace Taskette

/-- `MAX_NUM_TASKS` from scheduler.rs. -/
def MAX_NUM_TASKS : Nat := 16

/-- `MAX_PRIORITY` from scheduler.rs. -/
def MAX_PRIORITY : Nat := 10

/-- `IDLE_TASK_ID` from scheduler.rs. -/
def IDLE_TASK_ID : Nat := 0

/-- `QUEUE_LEN = MAX_NUM_TASKS + 1` from scheduler.rs. -/
def QUEUE_LEN : Nat := MAX_NUM_TASKS + 1

/-- `MAX_TIMER_REGS` from timer.rs. -/
def MAX_TIMER_REGS : Nat := 32

/-- Modulus of `usize` arithmetic (32-bit targets). -/
def USIZE_MOD : Nat := 2 ^ 32

/-- The error enum from lib.rs / the crate surface (§7 of the spec). -/
inductive Error where
  | TaskFull
  | InvalidPriority
  | NotFound
  | NotInitialized
  | TimerFull
deriving Repr, DecidableEq

/-- Task Control Block (`TaskInfo` in scheduler.rs; the feature-gated
`stack_limit` canary field is omitted, the canary feature is off). -/
structure TaskInfo where
  stack_pointer : Nat
  priority : Nat
  blocked : Bool
deriving Repr, DecidableEq

/-- Association-list model of `FnvIndexMap<usize, TaskInfo, MAX_NUM_TASKS>`. -/
abbrev TaskMap := List (Nat × TaskInfo)

/-- Key lookup in the task map (`tasks.get(&id)`). -/
def mapLookup : TaskMap → Nat → Option TaskInfo
  | [], _ => none
  | (k, v) :: rest, id => if id = k then some v else mapLookup rest id

/-- `FnvIndexMap::insert`: replace when present, append when absent and the map
has room, fail (`none`) when the map is full and the key is absent. -/
def mapInsert (m : TaskMap) (k : Nat) (v : TaskInfo) : Option TaskMap :=
  if (mapLookup m k).isSome then
    some (m.map fun kv => if kv.1 = k then (k, v) else kv)
  else if m.length < MAX_NUM_TASKS then
    some (m ++ [(k, v)])
  else
    none

/-- In-place update of one entry (`tasks.get_mut(&id)` followed by a field
assignment). -/
def mapUpdate (m : TaskMap) (k : Nat) (f : TaskInfo → TaskInfo) : TaskMap :=
  m.map fun kv => if kv.1 = k then (k, f kv.2) else kv

/-- `FnvIndexMap::remove`: drop the entry with the given key. -/
def mapRemove (m : TaskMap) (k : Nat) : TaskMap :=
  m.filter fun kv => kv.1 ≠ k

/-- `SchedulerState` from scheduler.rs.  The array of `MAX_PRIORITY + 1`
deques is modelled as a function from priority to the queue's contents; all
accesses in the code use indices `≤ MAX_PRIORITY`. -/
structure SchedulerState where
  tasks : TaskMap
  last_task_id : Nat
  queues : Nat → List Nat
  priority_map : Nat
  current_task : Nat
  started : Bool

/-- All-ones mask of a `u32`. -/
def u32Mask : Nat := 2 ^ 32 - 1

/-- `*priority_map &= !(1 << priority)` applied when the queue at `p` is empty
(shared tail of `dequeue_task` and `remove_task_from_queue`). -/
def clearBitIfEmpty (queues : Nat → List Nat) (pm : Nat) (p : Nat) : Nat :=
  if queues p = [] then pm &&& (u32Mask ^^^ (1 <<< p)) else pm

/-- `enqueue_task` from scheduler.rs: `push_back` (fails with `TaskFull` when
the deque holds `QUEUE_LEN` elements), then set bit `p`. -/
def enqueue_task (queues : Nat → List Nat) (pm : Nat) (task_id p : Nat) :
    Option ((Nat → List Nat) × Nat) :=
  if (queues p).length < QUEUE_LEN then
    some (Function.update queues p (queues p ++ [task_id]), pm ||| (1 <<< p))
  else
    none

/-- `dequeue_task` from scheduler.rs: `pop_front`, then clear bit `p` if the
queue is now empty. -/
def dequeue_task (queues : Nat → List Nat) (pm : Nat) (p : Nat) :
    Option Nat × (Nat → List Nat) × Nat :=
  match queues p with
  | [] => (none, queues, clearBitIfEmpty queues pm p)
  | x :: rest =>
      let qs := Function.update queues p rest
      (some x, qs, clearBitIfEmpty qs pm p)

/-- `remove_task_from_queue` from scheduler.rs: `retain(|elem| *elem != id)`,
then clear bit `p` if the queue is now empty. -/
def remove_task_from_queue (queues : Nat → List Nat) (pm : Nat)
    (task_id p : Nat) : (Nat → List Nat) × Nat :=
  let qs := Function.update queues p ((queues p).filter fun e => e ≠ task_id)
  (qs, clearBitIfEmpty qs pm p)

/-- The scheduler state installed by `Scheduler::init`: idle TCB at id 0 and
priority 0, idle enqueued in ready queue 0, bitmap `0b1`, current task 0. -/
def initState : SchedulerState :=
  { tasks := [(IDLE_TASK_ID, ⟨0, 0, false⟩)]
  , last_task_id := IDLE_TASK_ID
  , queues := Function.update (fun _ => []) 0 [IDLE_TASK_ID]
  , priority_map := 1
  , current_task := IDLE_TASK_ID
  , started := false }

/-- Fresh id computation in `spawn`: `last_task_id.wrapping_add(1)`, skipping
`IDLE_TASK_ID`. -/
def allocTaskId (last : Nat) : Nat :=
  let id := (last + 1) % USIZE_MOD
  if id = IDLE_TASK_ID then (id + 1) % USIZE_MOD else id

/-- `spawn` from scheduler.rs, from the point the critical section is entered
(the stack-frame construction yields `initial_sp`, passed in as data).  The
id advance happens before the fallible insert; on an insert failure the task
table is untouched but `last_task_id` keeps the advanced value; on an enqueue
failure the freshly inserted task stays in the table. -/
def spawn (priority initial_sp : Nat) (s : Option SchedulerState) :
    Except Error Nat × Option SchedulerState :=
  if MAX_PRIORITY < priority then
    (.error .InvalidPriority, s)
  else
    match s with
    | none => (.error .NotInitialized, none)
    | some st =>
      let task_id := allocTaskId st.last_task_id
      let st1 := { st with last_task_id := task_id }
      match mapInsert st1.tasks task_id ⟨initial_sp, priority, false⟩ with
      | none => (.error .TaskFull, some st1)
      | some tasks1 =>
        let st2 := { st1 with tasks := tasks1 }
        match enqueue_task st2.queues st2.priority_map task_id priority with
        | none => (.error .TaskFull, some st2)
        | some (qs, pm) =>
            (.ok task_id, some { st2 with queues := qs, priority_map := pm })

/-- Fuel-based bit length (`fuel = 32` suffices for any `u32`). -/
def bitLenAux : Nat → Nat → Nat
  | 0, _ => 0
  | fuel + 1, n => if n = 0 then 0 else bitLenAux fuel (n / 2) + 1

/-- Model of `u32::leading_zeros`. -/
def u32_leading_zeros (n : Nat) : Nat := 32 - bitLenAux 32 n

/-- First half of `select_task` (scheduler.rs lines 306–328): if the outgoing
task still exists, re-enqueue it at its priority unless it is blocked (a full
queue there is `unreachable!`, modelled `none`), and record `orig_sp` into its
saved stack pointer. -/
def select_task_stage1 (orig_sp : Nat) (st : SchedulerState) :
    Option SchedulerState :=
  match mapLookup st.tasks st.current_task with
  | none => some st
  | some t =>
    if t.blocked then
      some { st with
        tasks := mapUpdate st.tasks st.current_task
          fun u => { u with stack_pointer := orig_sp } }
    else
      match enqueue_task st.queues st.priority_map st.current_task t.priority with
      | none => none
      | some (qs, pm) =>
        some { st with
          queues := qs
          priority_map := pm
          tasks := mapUpdate st.tasks st.current_task
            fun u => { u with stack_pointer := orig_sp } }

/-- `select_task` from scheduler.rs: stage 1, then compute the highest
runnable priority as `31 - priority_map.leading_zeros()` (underflowing — hence
panicking — when the bitmap is zero), dequeue the head of that queue
(`unreachable!` when empty) and return its saved stack pointer. -/
def select_task (orig_sp : Nat) (s : Option SchedulerState) :
    Option (Nat × SchedulerState) :=
  match s with
  | none => none
  | some st =>
    match select_task_stage1 orig_sp st with
    | none => none
    | some st1 =>
      if st1.priority_map = 0 then none
      else
        let highest := 31 - u32_leading_zeros st1.priority_map
        match dequeue_task st1.queues st1.priority_map highest with
        | (none, _, _) => none
        | (some next_id, qs, pm) =>
          let st2 := { st1 with
            queues := qs, priority_map := pm, current_task := next_id }
          match mapLookup st2.tasks next_id with
          | none => none
          | some next => some (next.stack_pointer, st2)

/-- `block_task` from scheduler.rs.  Already-blocked tasks are left untouched
(early `Ok`); otherwise set the blocked flag and purge the id from its
priority's queue. -/
def block_task (id : Nat) (s : Option SchedulerState) :
    Except Error Unit × Option SchedulerState :=
  match s with
  | none => (.error .NotInitialized, none)
  | some st =>
    match mapLookup st.tasks id with
    | none => (.error .NotFound, some st)
    | some t =>
      if t.blocked then (.ok (), some st)
      else
        let tasks1 := mapUpdate st.tasks id fun u => { u with blocked := true }
        let (qs, pm) :=
          remove_task_from_queue st.queues st.priority_map id t.priority
        (.ok (), some { st with tasks := tasks1, queues := qs, priority_map := pm })

/-- `unblock_task` from scheduler.rs.  Not-blocked tasks are left untouched
(early `Ok`); otherwise the blocked flag is cleared and the id enqueued at the
tail of its priority's queue.  Note the source clears the flag before the
fallible enqueue, so on a `TaskFull` the flag stays cleared. -/
def unblock_task (id : Nat) (s : Option SchedulerState) :
    Except Error Unit × Option SchedulerState :=
  match s with
  | none => (.error .NotInitialized, none)
  | some st =>
    match mapLookup st.tasks id with
    | none => (.error .NotFound, some st)
    | some t =>
      if t.blocked = false then (.ok (), some st)
      else
        let tasks1 := mapUpdate st.tasks id fun u => { u with blocked := false }
        match enqueue_task st.queues st.priority_map id t.priority with
        | none => (.error .TaskFull, some { st with tasks := tasks1 })
        | some (qs, pm) =>
          (.ok (), some { st with tasks := tasks1, queues := qs, priority_map := pm })

/-- `remove_task` from scheduler.rs (panics when the scheduler is not
initialized, so it is defined on a bare state): remove the TCB, then purge the
id from its priority's queue. -/
def remove_task (id : Nat) (st : SchedulerState) :
    Except Error Unit × SchedulerState :=
  match mapLookup st.tasks id with
  | none => (.error .NotFound, st)
  | some t =>
    let tasks1 := mapRemove st.tasks id
    let (qs, pm) :=
      remove_task_from_queue st.queues st.priority_map id t.priority
    (.ok (), { st with tasks := tasks1, queues := qs, priority_map := pm })

/-- `current_task_id` from scheduler.rs. -/
def current_task_id (s : Option SchedulerState) : Except Error Nat :=
  match s with
  | none => .error .NotInitialized
  | some st => .ok st.current_task

/-- `TimerRegistry` from timer.rs. -/
structure TimerRegistry where
  time : Nat
  task_id : Nat
deriving Repr, DecidableEq

/-- `Timer` from timer.rs: the `u64` tick counter and the bounded min-heap,
modelled as a list kept sorted on `time` (head = heap root). -/
structure TimerState where
  time : Nat
  queue : List TimerRegistry
deriving Repr, DecidableEq

/-- Min-heap insertion by the `time` key (ties go after existing entries; the
real `heapless::BinaryHeap` leaves tie order unspecified). -/
def heapInsert (r : TimerRegistry) : List TimerRegistry → List TimerRegistry
  | [] => [r]
  | x :: xs => if r.time < x.time then r :: x :: xs else x :: heapInsert r xs

/-- The combined ISR-visible state: the two process-wide singletons. -/
structure GlobalState where
  sched : Option SchedulerState
  timer : Option TimerState

/-- `timer::init()` composed with scheduler `init`: the global state right
after `Scheduler::init` succeeds. -/
def initGlobal : GlobalState :=
  { sched := some initState, timer := some ⟨0, []⟩ }

/-- `tick` from timer.rs.  Note the source checks the heap root with a single
`if` (not a loop): at most one expired entry is popped per call, and the
result of the inner `unblock_task` is discarded (`let _ =`). -/
def tick (g : GlobalState) : GlobalState :=
  match g.timer with
  | none => g
  | some tm =>
    let tm1 : TimerState := { tm with time := tm.time + 1 }
    match tm1.queue with
    | [] => { g with timer := some tm1 }
    | top :: rest =>
      if top.time ≤ tm1.time then
        let sched1 := (unblock_task top.task_id g.sched).2
        { sched := sched1, timer := some { tm1 with queue := rest } }
      else
        { g with timer := some tm1 }

/-- `handle_tick` from scheduler.rs: advance the timer, then `yield_now()`
(which only pends the context-switch exception and changes no modelled
state). -/
def handle_tick (g : GlobalState) : GlobalState := tick g

/-- `wait_task_until` from timer.rs: return `Ok` at once when the deadline has
already passed; otherwise push the registration (`TimerFull` when the heap is
saturated) and only then block the task.  A `block_task` error propagates
after the push has persisted. -/
def wait_task_until (time task_id : Nat) (g : GlobalState) :
    Except Error Unit × GlobalState :=
  match g.timer with
  | none => (.error .NotInitialized, g)
  | some tm =>
    if time ≤ tm.time then (.ok (), g)
    else if tm.queue.length < MAX_TIMER_REGS then
      let tm1 : TimerState := { tm with queue := heapInsert ⟨time, task_id⟩ tm.queue }
      let (r, sched1) := block_task task_id g.sched
      (r, { sched := sched1, timer := some tm1 })
    else
      (.error .TimerFull, g)

/-- `current_time` from timer.rs. -/
def current_time (g : GlobalState) : Except Error Nat :=
  match g.timer with
  | none => .error .NotInitialized
  | some tm => .ok tm.time

/-- The loop body of `Futex::wake` from futex.rs: pop up to `num` waiters from
the head of the wait queue, calling `unblock_task` on each; an `Err` from
`unblock_task` propagates immediately (the already-popped waiter is gone from
the queue, the rest stay). -/
def wakeLoop : Nat → List Nat → Option SchedulerState →
    Except Error Unit × List Nat × Option SchedulerState
  | 0, q, s => (.ok (), q, s)
  | num + 1, q, s =>
    match q with
    | [] => (.ok (), [], s)
    | id :: rest =>
      match unblock_task id s with
      | (.ok _, s1) => wakeLoop num rest s1
      | (.error e, s1) => (.error e, rest, s1)

/-- `Futex::wake(num)` acting on the waiter queue and the scheduler state. -/
def futexWake (num : Nat) (q : List Nat) (s : Option SchedulerState) :
    Except Error Unit × List Nat × Option SchedulerState :=
  wakeLoop num q s

/-- Guard used as the hypothesis of the amended wake theorem: every
`unblock_task` performed while consuming the given waiter list succeeds. -/
def wakeAllOk : List Nat → Option SchedulerState → Bool
  | [], _ => true
  | id :: rest, s =>
    match unblock_task id s with
    | (.ok _, s1) => wakeAllOk rest s1
    | (.error _, _) => false

/-- Scheduler-state fold corresponding to a run of successful unblocks. -/
def unblockFold (l : List Nat) (s : Option SchedulerState) :
    Option SchedulerState :=
  l.foldl (fun s id => (unblock_task id s).2) s

/-- The highest-runnable-priority computation of the older revision's
`select_task` (src/taskette/src/lib.rs lines 277–280):
`(0..=MAX_PRIORITY).rev().find(|i| !queues[i].is_empty()).unwrap_or(0)`,
written as a downward scan from the given starting priority. -/
def findNonemptyDown (queues : Nat → List Nat) : Nat → Nat
  | 0 => 0
  | i + 1 => if queues (i + 1) = [] then findNonemptyDown queues i else i + 1

/-- The older revision's linear scan over the full priority range. -/
def linearHighestPriority (queues : Nat → List Nat) : Nat :=
  findNonemptyDown queues MAX_PRIORITY

/-- The bitmap revision's highest-runnable-priority computation
(scheduler.rs line 332). -/
def bitmapHighestPriority (pm : Nat) : Nat := 31 - u32_leading_zeros pm

/-- One observable operation of the scheduling substrate, as dispatched from
tasks and ISRs.  Each constructor's successor is the state left behind by the
corresponding source function (error returns included); operations that would
panic have no successor. -/
inductive Step : GlobalState → GlobalState → Prop where
  | spawn (g : GlobalState) (priority initial_sp : Nat) :
      Step g { g with sched := (spawn priority initial_sp g.sched).2 }
  | select (g : GlobalState) (orig_sp ret : Nat) (st : SchedulerState) :
      select_task orig_sp g.sched = some (ret, st) →
      Step g { g with sched := some st }
  | block (g : GlobalState) (id : Nat) :
      Step g { g with sched := (block_task id g.sched).2 }
  | unblock (g : GlobalState) (id : Nat) :
      Step g { g with sched := (unblock_task id g.sched).2 }
  | remove (g : GlobalState) (id : Nat) (st : SchedulerState) :
      g.sched = some st →
      Step g { g with sched := some (remove_task id st).2 }
  | tickStep (g : GlobalState) :
      Step g (handle_tick g)
  | wait (g : GlobalState) (time task_id : Nat) :
      Step g (wait_task_until time task_id g).2

/-- States reachable from the freshly initialized kernel by any sequence of
operations. -/
inductive Reachable : GlobalState → Prop where
  | init : Reachable initGlobal
  | step {g g' : GlobalState} : Reachable g → Step g g' → Reachable g'

/-! ## Basic facts about the bit-level helpers -/

theorem bitLenAux_le_fuel (fuel n : Nat) : bitLenAux fuel n ≤ fuel := by
  induction fuel generalizing n with
  | zero => simp [bitLenAux]
  | succ f ih =>
    simp only [bitLenAux]
    split
    · exact Nat.zero_le _
    · exact Nat.succ_le_succ (ih _)

theorem bitLenAux_pos {fuel n : Nat} (hf : 0 < fuel) (hn : 0 < n) :
    0 < bitLenAux fuel n := by
  cases fuel with
  | zero => omega
  | succ f =>
    simp only [bitLenAux]
    split
    · omega
    · exact Nat.succ_pos _

theorem testBit_false_of_le_bitLenAux {fuel n q : Nat} (h : n < 2 ^ fuel)
    (hq : bitLenAux fuel n ≤ q) : n.testBit q = false := by
  induction fuel generalizing n q with
  | zero =>
    have : n = 0 := by omega
    subst this
    exact Nat.zero_testBit q
  | succ f ih =>
    by_cases h0 : n = 0
    · subst h0; exact Nat.zero_testBit q
    · simp only [bitLenAux, h0, if_false] at hq
      obtain ⟨q', rfl⟩ : ∃ q', q = q' + 1 := ⟨q - 1, by omega⟩
      rw [Nat.testBit_succ]
      exact ih (by omega) (by omega)

theorem testBit_bitLenAux_pred {fuel n : Nat} (hn : 0 < n) (h : n < 2 ^ fuel) :
    n.testBit (bitLenAux fuel n - 1) = true := by
  induction fuel generalizing n with
  | zero => omega
  | succ f ih =>
    have h0 : n ≠ 0 := by omega
    simp only [bitLenAux, h0, if_false, Nat.add_sub_cancel]
    by_cases h2 : n / 2 = 0
    · have hn1 : n = 1 := by omega
      subst hn1
      have hz : bitLenAux f (1 / 2) = 0 := by
        have h12 : (1 : Nat) / 2 = 0 := rfl
        rw [h12]
        cases f <;> simp [bitLenAux]
      rw [hz]
      decide
    · have hpos : 0 < bitLenAux f (n / 2) :=
        bitLenAux_pos (by cases f with | zero => omega | succ _ => omega)
          (by omega)
      obtain ⟨k, hk⟩ : ∃ k, bitLenAux f (n / 2) = k + 1 :=
        ⟨bitLenAux f (n / 2) - 1, by omega⟩
      rw [hk]
      rw [Nat.testBit_succ]
      have := ih (n := n / 2) (by omega) (by omega)
      rwa [hk, Nat.add_sub_cancel] at this

theorem bitmapHighestPriority_eq (pm : Nat) (hpm : pm < 2 ^ 32) (h0 : pm ≠ 0) :
    bitmapHighestPriority pm = bitLenAux 32 pm - 1 := by
  have h1 : 0 < bitLenAux 32 pm := bitLenAux_pos (by omega) (by omega)
  have h2 : bitLenAux 32 pm ≤ 32 := bitLenAux_le_fuel 32 pm
  simp only [bitmapHighestPriority, u32_leading_zeros]
  omega

/-- The bitmap MSB is a set bit, and every higher bit is clear. -/
theorem bitmapHighestPriority_spec (pm : Nat) (hpm : pm < 2 ^ 32)
    (h0 : pm ≠ 0) :
    pm.testBit (bitmapHighestPriority pm) = true ∧
      ∀ q, bitmapHighestPriority pm < q → pm.testBit q = false := by
  rw [bitmapHighestPriority_eq pm hpm h0]
  refine ⟨testBit_bitLenAux_pred (by omega) hpm, fun q hq => ?_⟩
  have h1 : 0 < bitLenAux 32 pm := bitLenAux_pos (by omega) (by omega)
  exact testBit_false_of_le_bitLenAux hpm (by omega)

theorem testBit_setBit (pm p q : Nat) :
    (pm ||| (1 <<< p)).testBit q = (pm.testBit q || decide (p = q)) := by
  rw [Nat.one_shiftLeft, Nat.testBit_or, Nat.testBit_two_pow]

theorem testBit_clearBit (pm p q : Nat) (hq : q < 32) :
    (pm &&& (u32Mask ^^^ (1 <<< p))).testBit q =
      (pm.testBit q && !decide (p = q)) := by
  rw [Nat.testBit_and, Nat.testBit_xor, Nat.one_shiftLeft,
    Nat.testBit_two_pow]
  have : u32Mask = 2 ^ 32 - 1 := rfl
  rw [this, Nat.testBit_two_pow_sub_one]
  simp [hq]

theorem setBit_lt (pm p : Nat) (hpm : pm < 2 ^ 32) (hp : p < 32) :
    pm ||| (1 <<< p) < 2 ^ 32 := by
  rw [Nat.one_shiftLeft]
  exact Nat.or_lt_two_pow hpm (Nat.pow_lt_pow_right (by omega) hp)

theorem clearBit_le (pm m : Nat) : pm &&& m ≤ pm := Nat.and_le_left

/-! ## The bitmap-coupling invariant (claim C3) and its preservation -/

/-- Ready queues above `MAX_PRIORITY` do not exist in the source (the array has
`MAX_PRIORITY + 1` entries); in the model they stay empty. -/
def BoundedQ (queues : Nat → List Nat) : Prop :=
  ∀ p, MAX_PRIORITY < p → queues p = []

/-- Spec §3: `priority_map` bit `p` is set iff ready queue `p` is non-empty. -/
def CoupledQ (queues : Nat → List Nat) (pm : Nat) : Prop :=
  ∀ p, p < 32 → (pm.testBit p = true ↔ queues p ≠ [])

/-- Every TCB records a priority within range (established by the `spawn`
check and by `init`). -/
def PrioritiesOk (m : TaskMap) : Prop :=
  ∀ kv ∈ m, kv.2.priority ≤ MAX_PRIORITY

/-- The state-wide invariant needed for claim C3. -/
def SInv (st : SchedulerState) : Prop :=
  st.priority_map < 2 ^ 32 ∧ BoundedQ st.queues ∧ PrioritiesOk st.tasks ∧
    CoupledQ st.queues st.priority_map

theorem clearBitIfEmpty_coupled {qs' : Nat → List Nat} {pm p : Nat}
    (hp : p < 32) (hother : ∀ q, q < 32 → q ≠ p → (pm.testBit q = true ↔ qs' q ≠ []))
    (hp' : qs' p ≠ [] → pm.testBit p = true) :
    CoupledQ qs' (clearBitIfEmpty qs' pm p) := by
  intro q hq
  unfold clearBitIfEmpty
  split
  · rename_i hempty
    rw [testBit_clearBit _ _ _ hq]
    by_cases hqp : q = p
    · subst hqp; simp [hempty]
    · have hpq : ¬p = q := fun h => hqp h.symm
      simp only [decide_eq_false hpq, Bool.not_false, Bool.and_true]
      exact hother q hq hqp
  · rename_i hne
    by_cases hqp : q = p
    · subst hqp
      constructor
      · intro _; exact hne
      · intro _; exact hp' hne
    · exact hother q hq hqp

theorem clearBitIfEmpty_lt {qs' : Nat → List Nat} {pm p : Nat}
    (hpm : pm < 2 ^ 32) : clearBitIfEmpty qs' pm p < 2 ^ 32 := by
  unfold clearBitIfEmpty
  split
  · exact Nat.lt_of_le_of_lt Nat.and_le_left hpm
  · exact hpm

theorem enqueue_task_inv {qs : Nat → List Nat} {pm id p : Nat}
    {qs' : Nat → List Nat} {pm' : Nat}
    (hp : p ≤ MAX_PRIORITY) (hpm : pm < 2 ^ 32) (hb : BoundedQ qs)
    (hc : CoupledQ qs pm)
    (h : enqueue_task qs pm id p = some (qs', pm')) :
    pm' < 2 ^ 32 ∧ BoundedQ qs' ∧ CoupledQ qs' pm' := by
  unfold enqueue_task at h
  split at h
  · injection h with h'
    injection h' with h1 h2
    subst h1; subst h2
    refine ⟨setBit_lt pm p hpm (by unfold MAX_PRIORITY at hp; omega), ?_, ?_⟩
    · intro q hq
      rw [Function.update_noteq (by omega)]
      exact hb q hq
    · intro q hq
      rw [testBit_setBit]
      by_cases hqp : q = p
      · subst hqp
        simp [Function.update_same]
      · rw [Function.update_noteq hqp]
        have hpq : ¬p = q := fun h => hqp h.symm
        simp only [decide_eq_false hpq, Bool.or_false]
        exact hc q hq
  · exact absurd h (by simp)

theorem dequeue_task_inv {qs : Nat → List Nat} {pm p : Nat}
    {r : Option Nat} {qs' : Nat → List Nat} {pm' : Nat}
    (hp : p ≤ MAX_PRIORITY) (hpm : pm < 2 ^ 32) (hb : BoundedQ qs)
    (hc : CoupledQ qs pm)
    (h : dequeue_task qs pm p = (r, qs', pm')) :
    pm' < 2 ^ 32 ∧ BoundedQ qs' ∧ CoupledQ qs' pm' := by
  have hp32 : p < 32 := by unfold MAX_PRIORITY at hp; omega
  unfold dequeue_task at h
  split at h
  · rename_i hempty
    injection h with h1 h'
    injection h' with h2 h3
    subst h2; subst h3
    refine ⟨clearBitIfEmpty_lt hpm, hb, ?_⟩
    exact clearBitIfEmpty_coupled hp32 (fun q hq _ => hc q hq)
      (fun hne => (hc p hp32).2 hne)
  · rename_i x rest hxs
    injection h with h1 h'
    injection h' with h2 h3
    subst h2; subst h3
    refine ⟨clearBitIfEmpty_lt hpm, ?_, ?_⟩
    · intro q hq
      rw [Function.update_noteq (by omega)]
      exact hb q hq
    · refine clearBitIfEmpty_coupled hp32 (fun q hq hqp => ?_) (fun hne => ?_)
      · rw [Function.update_noteq hqp]
        exact hc q hq
      · exact (hc p hp32).2 (by rw [hxs]; simp)

theorem remove_task_from_queue_inv {qs : Nat → List Nat} {pm id p : Nat}
    {qs' : Nat → List Nat} {pm' : Nat}
    (hp : p ≤ MAX_PRIORITY) (hpm : pm < 2 ^ 32) (hb : BoundedQ qs)
    (hc : CoupledQ qs pm)
    (h : remove_task_from_queue qs pm id p = (qs', pm')) :
    pm' < 2 ^ 32 ∧ BoundedQ qs' ∧ CoupledQ qs' pm' := by
  have hp32 : p < 32 := by unfold MAX_PRIORITY at hp; omega
  unfold remove_task_from_queue at h
  injection h with h1 h2
  subst h1; subst h2
  refine ⟨clearBitIfEmpty_lt hpm, ?_, ?_⟩
  · intro q hq
    rw [Function.update_noteq (by omega)]
    exact hb q hq
  · refine clearBitIfEmpty_coupled hp32 (fun q hq hqp => ?_) (fun hne => ?_)
    · rw [Function.update_noteq hqp]
      exact hc q hq
    · refine (hc p hp32).2 ?_
      rw [Function.update_same] at hne
      intro hempty
      apply hne
      rw [hempty]
      rfl

/-! ## Task-map lemmas -/

theorem mapLookup_mem {m : TaskMap} {k : Nat} {t : TaskInfo}
    (h : mapLookup m k = some t) : (k, t) ∈ m := by
  induction m with
  | nil => simp [mapLookup] at h
  | cons kv rest ih =>
    unfold mapLookup at h
    split at h
    · rename_i hk
      injection h with h
      subst h; subst hk
      exact List.mem_cons_self _ _
    · exact List.mem_cons_of_mem _ (ih h)

theorem PrioritiesOk_mapUpdate (f : TaskInfo → TaskInfo) {m : TaskMap}
    {k : Nat} (hf : ∀ u, (f u).priority = u.priority) (h : PrioritiesOk m) :
    PrioritiesOk (mapUpdate m k f) := by
  intro kv hkv
  unfold mapUpdate at hkv
  obtain ⟨kv0, hkv0, heq⟩ := List.mem_map.mp hkv
  by_cases hk : kv0.1 = k
  · simp only [hk, if_true] at heq
    subst heq
    simp only [hf]
    exact h kv0 hkv0
  · simp only [hk, if_false] at heq
    subst heq
    exact h kv0 hkv0

theorem PrioritiesOk_mapInsert {m m' : TaskMap} {k sp p : Nat} {b : Bool}
    (hp : p ≤ MAX_PRIORITY) (h : PrioritiesOk m)
    (hins : mapInsert m k ⟨sp, p, b⟩ = some m') : PrioritiesOk m' := by
  unfold mapInsert at hins
  split at hins
  · injection hins with hins
    subst hins
    intro kv hkv
    obtain ⟨kv0, hkv0, heq⟩ := List.mem_map.mp hkv
    by_cases hk : kv0.1 = k
    · simp only [hk, if_true] at heq
      subst heq
      exact hp
    · simp only [hk, if_false] at heq
      subst heq
      exact h kv0 hkv0
  · split at hins
    · injection hins with hins
      subst hins
      intro kv hkv
      rcases List.mem_append.mp hkv with hmem | hmem
      · exact h kv hmem
      · simp at hmem
        subst hmem
        exact hp
    · exact absurd hins (by simp)

theorem PrioritiesOk_mapRemove {m : TaskMap} {k : Nat} (h : PrioritiesOk m) :
    PrioritiesOk (mapRemove m k) := by
  intro kv hkv
  exact h kv (List.mem_of_mem_filter hkv)

theorem PrioritiesOk_lookup {m : TaskMap} {k : Nat} {t : TaskInfo}
    (h : PrioritiesOk m) (hl : mapLookup m k = some t) :
    t.priority ≤ MAX_PRIORITY :=
  h (k, t) (mapLookup_mem hl)

/-! ## Preservation of the coupling invariant by each operation -/

theorem highest_le {qs : Nat → List Nat} {pm : Nat} (hpm : pm < 2 ^ 32)
    (h0 : pm ≠ 0) (hb : BoundedQ qs) (hc : CoupledQ qs pm) :
    bitmapHighestPriority pm ≤ MAX_PRIORITY := by
  have hle : bitmapHighestPriority pm ≤ 31 := by
    rw [bitmapHighestPriority_eq pm hpm h0]
    have := bitLenAux_le_fuel 32 pm
    omega
  have hbit := (bitmapHighestPriority_spec pm hpm h0).1
  have hne := (hc _ (by omega)).1 hbit
  by_contra hgt
  exact hne (hb _ (by omega))

theorem select_task_stage1_SInv {sp : Nat} {st st1 : SchedulerState}
    (hI : SInv st) (h : select_task_stage1 sp st = some st1) : SInv st1 := by
  obtain ⟨h1, h2, h3, h4⟩ := hI
  unfold select_task_stage1 at h
  cases hl : mapLookup st.tasks st.current_task with
  | none =>
    rw [hl] at h
    injection h with h
    subst h
    exact ⟨h1, h2, h3, h4⟩
  | some t =>
    rw [hl] at h
    by_cases hbl : t.blocked
    · simp only [hbl, if_true] at h
      injection h with h
      subst h
      exact ⟨h1, h2, PrioritiesOk_mapUpdate
        (fun u => { u with stack_pointer := sp }) (fun u => rfl) h3, h4⟩
    · simp only [hbl, if_false] at h
      cases henq : enqueue_task st.queues st.priority_map st.current_task
          t.priority with
      | none => rw [henq] at h; exact absurd h (by simp)
      | some qspm =>
        obtain ⟨qs, pm⟩ := qspm
        rw [henq] at h
        injection h with h
        subst h
        obtain ⟨hpm', hb', hc'⟩ :=
          enqueue_task_inv (PrioritiesOk_lookup h3 hl) h1 h2 h4 henq
        exact ⟨hpm', hb', PrioritiesOk_mapUpdate
          (fun u => { u with stack_pointer := sp }) (fun u => rfl) h3, hc'⟩

theorem select_task_SInv {sp ret : Nat} {st st' : SchedulerState}
    (hI : SInv st) (h : select_task sp (some st) = some (ret, st')) :
    SInv st' := by
  unfold select_task at h
  simp only at h
  cases hs1 : select_task_stage1 sp st with
  | none => rw [hs1] at h; simp at h
  | some st1 =>
    rw [hs1] at h
    simp only at h
    have hI1 := select_task_stage1_SInv hI hs1
    obtain ⟨h1, h2, h3, h4⟩ := hI1
    by_cases h0 : st1.priority_map = 0
    · simp only [h0, if_true] at h
      exact Option.noConfusion h
    · simp only [h0, if_false] at h
      have hhp : bitmapHighestPriority st1.priority_map ≤ MAX_PRIORITY :=
        highest_le h1 h0 h2 h4
      obtain ⟨r, qs2, pm2, hdq⟩ :
          ∃ r qs2 pm2, dequeue_task st1.queues st1.priority_map
            (31 - u32_leading_zeros st1.priority_map) = (r, qs2, pm2) :=
        ⟨_, _, _, rfl⟩
      rw [hdq] at h
      cases r with
      | none => simp at h
      | some next_id =>
        simp only at h
        obtain ⟨hpm2, hb2, hc2⟩ := dequeue_task_inv hhp h1 h2 h4 hdq
        cases hl2 : mapLookup st1.tasks next_id with
        | none => rw [hl2] at h; simp at h
        | some next =>
          rw [hl2] at h
          simp only [Option.some.injEq, Prod.mk.injEq] at h
          obtain ⟨hret, hst⟩ := h
          subst hst
          exact ⟨hpm2, hb2, h3, hc2⟩

theorem spawn_SInv {pr sp : Nat} {st st' : SchedulerState}
    (hI : SInv st) (h : (spawn pr sp (some st)).2 = some st') : SInv st' := by
  obtain ⟨h1, h2, h3, h4⟩ := hI
  unfold spawn at h
  split at h
  · injection h with h
    subst h
    exact ⟨h1, h2, h3, h4⟩
  · rename_i hpr
    simp only at h
    cases hins : mapInsert st.tasks (allocTaskId st.last_task_id)
        ⟨sp, pr, false⟩ with
    | none =>
      rw [hins] at h
      injection h with h
      subst h
      exact ⟨h1, h2, h3, h4⟩
    | some tasks1 =>
      rw [hins] at h
      have h3' : PrioritiesOk tasks1 :=
        PrioritiesOk_mapInsert (by unfold MAX_PRIORITY at hpr ⊢; omega) h3 hins
      cases henq : enqueue_task st.queues st.priority_map
          (allocTaskId st.last_task_id) pr with
      | none =>
        rw [henq] at h
        injection h with h
        subst h
        exact ⟨h1, h2, h3', h4⟩
      | some qspm =>
        obtain ⟨qs, pm⟩ := qspm
        rw [henq] at h
        injection h with h
        subst h
        obtain ⟨hpm', hb', hc'⟩ :=
          enqueue_task_inv (by unfold MAX_PRIORITY at hpr ⊢; omega) h1 h2 h4 henq
        exact ⟨hpm', hb', h3', hc'⟩

theorem block_task_SInv {id : Nat} {st st' : SchedulerState}
    (hI : SInv st) (h : (block_task id (some st)).2 = some st') : SInv st' := by
  obtain ⟨h1, h2, h3, h4⟩ := hI
  unfold block_task at h
  simp only at h
  cases hl : mapLookup st.tasks id with
  | none =>
    rw [hl] at h
    injection h with h
    subst h
    exact ⟨h1, h2, h3, h4⟩
  | some t =>
    rw [hl] at h
    simp only at h
    by_cases hbl : t.blocked
    · simp only [hbl, if_true] at h
      injection h with h
      subst h
      exact ⟨h1, h2, h3, h4⟩
    · simp only [hbl, if_false] at h
      obtain ⟨qs, pm, hrm⟩ :
          ∃ qs pm, remove_task_from_queue st.queues st.priority_map id
            t.priority = (qs, pm) := ⟨_, _, rfl⟩
      rw [hrm] at h
      injection h with h
      subst h
      obtain ⟨hpm', hb', hc'⟩ :=
        remove_task_from_queue_inv (PrioritiesOk_lookup h3 hl) h1 h2 h4 hrm
      exact ⟨hpm', hb', PrioritiesOk_mapUpdate
        (fun u => { u with blocked := true }) (fun u => rfl) h3, hc'⟩

theorem unblock_task_SInv {id : Nat} {st st' : SchedulerState}
    (hI : SInv st) (h : (unblock_task id (some st)).2 = some st') : SInv st' := by
  obtain ⟨h1, h2, h3, h4⟩ := hI
  unfold unblock_task at h
  simp only at h
  cases hl : mapLookup st.tasks id with
  | none =>
    rw [hl] at h
    injection h with h
    subst h
    exact ⟨h1, h2, h3, h4⟩
  | some t =>
    rw [hl] at h
    simp only at h
    by_cases hbl : t.blocked = false
    · simp only [hbl, if_true] at h
      injection h with h
      subst h
      exact ⟨h1, h2, h3, h4⟩
    · simp only [hbl, if_false] at h
      cases henq : enqueue_task st.queues st.priority_map id t.priority with
      | none =>
        rw [henq] at h
        injection h with h
        subst h
        exact ⟨h1, h2, PrioritiesOk_mapUpdate
          (fun u => { u with blocked := false }) (fun u => rfl) h3, h4⟩
      | some qspm =>
        obtain ⟨qs, pm⟩ := qspm
        rw [henq] at h
        injection h with h
        subst h
        obtain ⟨hpm', hb', hc'⟩ :=
          enqueue_task_inv (PrioritiesOk_lookup h3 hl) h1 h2 h4 henq
        exact ⟨hpm', hb', PrioritiesOk_mapUpdate
          (fun u => { u with blocked := false }) (fun u => rfl) h3, hc'⟩

theorem remove_task_SInv {id : Nat} {st : SchedulerState}
    (hI : SInv st) : SInv (remove_task id st).2 := by
  obtain ⟨h1, h2, h3, h4⟩ := hI
  unfold remove_task
  cases hl : mapLookup st.tasks id with
  | none => exact ⟨h1, h2, h3, h4⟩
  | some t =>
    simp only
    obtain ⟨qs, pm, hrm⟩ :
        ∃ qs pm, remove_task_from_queue st.queues st.priority_map id
          t.priority = (qs, pm) := ⟨_, _, rfl⟩
    rw [hrm]
    obtain ⟨hpm', hb', hc'⟩ :=
      remove_task_from_queue_inv (PrioritiesOk_lookup h3 hl) h1 h2 h4 hrm
    exact ⟨hpm', hb', PrioritiesOk_mapRemove h3, hc'⟩

/-- The invariant lifted to the global state. -/
def GInv (g : GlobalState) : Prop :=
  ∀ st, g.sched = some st → SInv st

theorem unblock_task_opt_SInv {id : Nat} {s : Option SchedulerState}
    (h : ∀ st, s = some st → SInv st) :
    ∀ st, (unblock_task id s).2 = some st → SInv st := by
  intro st' hst'
  cases s with
  | none => simp [unblock_task] at hst'
  | some st => exact unblock_task_SInv (h st rfl) hst'

theorem block_task_opt_SInv {id : Nat} {s : Option SchedulerState}
    (h : ∀ st, s = some st → SInv st) :
    ∀ st, (block_task id s).2 = some st → SInv st := by
  intro st' hst'
  cases s with
  | none => simp [block_task] at hst'
  | some st => exact block_task_SInv (h st rfl) hst'

theorem GInv_step {g g' : GlobalState} (hI : GInv g) (hs : Step g g') :
    GInv g' := by
  cases hs with
  | spawn pr sp =>
    intro st' hst'
    replace hst' : (spawn pr sp g.sched).2 = some st' := hst'
    cases hg : g.sched with
    | none =>
      rw [hg] at hst'
      unfold spawn at hst'
      split at hst' <;> simp_all
    | some st =>
      rw [hg] at hst'
      exact spawn_SInv (hI st hg) hst'
  | select sp ret st hsel =>
    intro st' hst'
    replace hst' : some st = some st' := hst'
    injection hst' with hst'
    subst hst'
    cases hg : g.sched with
    | none => rw [hg] at hsel; simp [select_task] at hsel
    | some st0 =>
      rw [hg] at hsel
      exact select_task_SInv (hI st0 hg) hsel
  | block id =>
    intro st' hst'
    exact block_task_opt_SInv hI st' hst'
  | unblock id =>
    intro st' hst'
    exact unblock_task_opt_SInv hI st' hst'
  | remove id st hg =>
    intro st' hst'
    replace hst' : some (remove_task id st).2 = some st' := hst'
    injection hst' with hst'
    subst hst'
    exact remove_task_SInv (hI st hg)
  | tickStep =>
    intro st' hst'
    unfold handle_tick tick at hst'
    cases htm : g.timer with
    | none => rw [htm] at hst'; exact hI st' hst'
    | some tm =>
      rw [htm] at hst'
      simp only at hst'
      cases hq : tm.queue with
      | nil => rw [hq] at hst'; exact hI st' hst'
      | cons top rest =>
        rw [hq] at hst'
        by_cases hexp : top.time ≤ tm.time + 1
        · simp only [hexp, if_true] at hst'
          exact unblock_task_opt_SInv hI st' hst'
        · simp only [hexp, if_false] at hst'
          exact hI st' hst'
  | wait time task_id =>
    intro st' hst'
    replace hst' : (wait_task_until time task_id g).2.sched = some st' := hst'
    unfold wait_task_until at hst'
    cases htm : g.timer with
    | none => rw [htm] at hst'; exact hI st' hst'
    | some tm =>
      rw [htm] at hst'
      simp only at hst'
      by_cases hle : time ≤ tm.time
      · simp only [hle, if_true] at hst'
        exact hI st' hst'
      · simp only [hle, if_false] at hst'
        by_cases hfull : tm.queue.length < MAX_TIMER_REGS
        · simp only [hfull, if_true] at hst'
          exact block_task_opt_SInv hI st' hst'
        · simp only [hfull, if_false] at hst'
          exact hI st' hst'

theorem SInv_initState : SInv initState := by
  refine ⟨by show (1 : Nat) < 2 ^ 32; norm_num, ?_, ?_, ?_⟩
  · intro p hp
    show Function.update (fun _ => []) 0 [IDLE_TASK_ID] p = []
    rw [Function.update_noteq]
    unfold MAX_PRIORITY at hp
    omega
  · intro kv hkv
    simp only [initState, List.mem_singleton] at hkv
    subst hkv
    simp [MAX_PRIORITY]
  · intro p hp
    show Nat.testBit 1 p = true ↔ Function.update (fun _ => []) 0 [IDLE_TASK_ID] p ≠ []
    revert hp
    revert p
    decide

theorem GInv_reachable {g : GlobalState} (h : Reachable g) : GInv g := by
  induction h with
  | init =>
    intro st hst
    injection hst with hst
    subst hst
    exact SInv_initState
  | step _ hs ih => exact GInv_step ih hs

/-! ## Claim C3: the bitmap coupling invariant over all reachable states -/

/-- C3: In every scheduler state reachable from init by any sequence of
spawn, select_task, block_task, unblock_task, remove_task and handle_tick
operations (wait_task_until included), bit `p` of the priority bitmap is set
iff the ready queue at priority `p` is non-empty, for every
`p ≤ MAX_PRIORITY`. -/
theorem priority_bitmap_coupling {g : GlobalState} {st : SchedulerState}
    {p : Nat} (hg : Reachable g) (hst : g.sched = some st)
    (hp : p ≤ MAX_PRIORITY) :
    st.priority_map.testBit p = true ↔ st.queues p ≠ [] := by
  obtain ⟨_, _, _, hc⟩ := GInv_reachable hg st hst
  exact hc p (by unfold MAX_PRIORITY at hp; omega)

/-- Witness for C3: the coupling equivalence holds at priority 0 of the
freshly initialized state. -/
theorem priority_bitmap_coupling_witness :
    Reachable initGlobal ∧ initGlobal.sched = some initState ∧
      0 ≤ MAX_PRIORITY ∧
      (initState.priority_map.testBit 0 = true ↔ initState.queues 0 ≠ []) :=
  ⟨Reachable.init, rfl, by decide,
    priority_bitmap_coupling Reachable.init rfl (by decide)⟩

/-! ## Claim C9: the bitmap MSB agrees with the older revision's linear scan -/

theorem findNonemptyDown_eq {queues : Nat → List Nat} {h : Nat} :
    ∀ {i : Nat}, h ≤ i → queues h ≠ [] →
      (∀ q, h < q → q ≤ i → queues q = []) → findNonemptyDown queues i = h := by
  intro i
  induction i with
  | zero =>
    intro hhi hne _
    interval_cases h
    rfl
  | succ i ih =>
    intro hhi hne hempty
    by_cases hc : h = i + 1
    · subst hc
      simp [findNonemptyDown, hne]
    · have he : queues (i + 1) = [] := hempty (i + 1) (by omega) (le_refl _)
      simp only [findNonemptyDown, he, if_true]
      exact ih (by omega) hne (fun q hq hqi => hempty q hq (by omega))

/-- C9: whenever the bitmap coupling invariant holds (the bitmap is a `u32`
whose bit `p` mirrors queue `p`, and queues above `MAX_PRIORITY` are absent)
and at least one ready queue is non-empty, the highest runnable priority
computed as `31 - priority_map.leading_zeros()` (scheduler.rs) equals the
older revision's linear scan `(0..=MAX_PRIORITY).rev().find(nonempty)`
(lib.rs), so both `select_task` implementations choose the same priority
bucket. -/
theorem select_priority_refinement {qs : Nat → List Nat} {pm : Nat}
    (hpm : pm < 2 ^ 32) (hb : BoundedQ qs) (hc : CoupledQ qs pm)
    (hne : ∃ p, p ≤ MAX_PRIORITY ∧ qs p ≠ []) :
    bitmapHighestPriority pm = linearHighestPriority qs := by
  obtain ⟨p, hple, hpne⟩ := hne
  have hp32 : p < 32 := by unfold MAX_PRIORITY at hple; omega
  have hp0 : pm ≠ 0 := by
    intro h0
    subst h0
    have := (hc p hp32).2 hpne
    rw [Nat.zero_testBit] at this
    exact Bool.noConfusion this
  obtain ⟨hbit, habove⟩ := bitmapHighestPriority_spec pm hpm hp0
  have hH32 : bitmapHighestPriority pm < 32 := by
    rw [bitmapHighestPriority_eq pm hpm hp0]
    have h1 : 0 < bitLenAux 32 pm := bitLenAux_pos (by omega) (by omega)
    have h2 := bitLenAux_le_fuel 32 pm
    omega
  have hHne : qs (bitmapHighestPriority pm) ≠ [] := (hc _ hH32).1 hbit
  have hHle : bitmapHighestPriority pm ≤ MAX_PRIORITY := by
    by_contra hgt
    exact hHne (hb _ (by omega))
  unfold linearHighestPriority
  refine (findNonemptyDown_eq hHle hHne fun q hq hqle => ?_).symm
  by_contra hqq
  have hMp : q < 32 := by unfold MAX_PRIORITY at hqle; omega
  have := (hc q hMp).2 hqq
  rw [habove q hq] at this
  exact Bool.noConfusion this

/-- Witness for C9 at the initial state: both computations give priority 0. -/
theorem select_priority_refinement_witness :
    (1 : Nat) < 2 ^ 32 ∧ BoundedQ initState.queues ∧
      CoupledQ initState.queues 1 ∧
      (∃ p, p ≤ MAX_PRIORITY ∧ initState.queues p ≠ []) ∧
      bitmapHighestPriority 1 = linearHighestPriority initState.queues := by
  have hb : BoundedQ initState.queues := by
    intro p hp
    show Function.update (fun _ => []) 0 [IDLE_TASK_ID] p = []
    rw [Function.update_noteq]
    unfold MAX_PRIORITY at hp
    omega
  have hc : CoupledQ initState.queues 1 := by
    intro p hp
    show Nat.testBit 1 p = true ↔
      Function.update (fun _ => []) 0 [IDLE_TASK_ID] p ≠ []
    revert hp
    revert p
    decide
  refine ⟨by norm_num, hb, hc, ⟨0, by decide⟩, ?_⟩
  exact select_priority_refinement (by norm_num) hb hc ⟨0, by decide⟩

/-! ## Lookup/update/allocation helper lemmas -/

theorem mapLookup_none_of_forall_lt {m : TaskMap} {k : Nat}
    (h : ∀ kv ∈ m, kv.1 < k) : mapLookup m k = none := by
  induction m with
  | nil => rfl
  | cons kv rest ih =>
    obtain ⟨k0, v0⟩ := kv
    have hk0 : k0 < k := h (k0, v0) (List.mem_cons_self _ _)
    unfold mapLookup
    rw [if_neg (by omega)]
    exact ih fun kv hkv => h kv (List.mem_cons_of_mem _ hkv)

theorem mapLookup_mapUpdate_self {m : TaskMap} {k : Nat} {t : TaskInfo}
    (f : TaskInfo → TaskInfo) (h : mapLookup m k = some t) :
    mapLookup (mapUpdate m k f) k = some (f t) := by
  induction m with
  | nil => simp [mapLookup] at h
  | cons kv rest ih =>
    obtain ⟨k0, v0⟩ := kv
    unfold mapLookup at h
    unfold mapUpdate
    by_cases hk : k = k0
    · subst hk
      rw [if_pos rfl] at h
      injection h with h
      subst h
      show mapLookup (mapUpdate ((k, v0) :: rest) k f) k = some (f v0)
      unfold mapUpdate
      rw [List.map_cons]
      have hcond : (if ((k, v0).1 = k) then (k, f v0) else (k, v0)) = (k, f v0) :=
        if_pos rfl
      rw [hcond]
      unfold mapLookup
      rw [if_pos rfl]
    · rw [if_neg hk] at h
      simp only [List.map_cons]
      have hk0 : ¬(k0 = k) := fun he => hk he.symm
      rw [if_neg hk0]
      unfold mapLookup
      rw [if_neg hk]
      exact ih h

theorem mapLookup_mapUpdate_ne {m : TaskMap} {k j : Nat}
    (f : TaskInfo → TaskInfo) (h : j ≠ k) :
    mapLookup (mapUpdate m k f) j = mapLookup m j := by
  induction m with
  | nil => rfl
  | cons kv rest ih =>
    obtain ⟨k0, v0⟩ := kv
    unfold mapUpdate
    simp only [List.map_cons]
    by_cases hk : k0 = k
    · subst hk
      rw [if_pos rfl]
      unfold mapLookup
      rw [if_neg h, if_neg h]
      exact ih
    · rw [if_neg hk]
      unfold mapLookup
      by_cases hj : j = k0
      · rw [if_pos hj, if_pos hj]
      · rw [if_neg hj, if_neg hj]
        exact ih

theorem allocTaskId_ne_idle (last : Nat) : allocTaskId last ≠ IDLE_TASK_ID := by
  unfold allocTaskId IDLE_TASK_ID
  simp only
  split
  · rename_i h0
    rw [h0]
    intro hcontra
    have : (1 : Nat) % USIZE_MOD = 1 := Nat.mod_eq_of_lt (by norm_num [USIZE_MOD])
    rw [this] at hcontra
    exact one_ne_zero hcontra
  · rename_i h0
    exact h0

theorem allocTaskId_eq (last : Nat) (h : last + 1 < USIZE_MOD) :
    allocTaskId last = last + 1 := by
  unfold allocTaskId
  simp only
  rw [Nat.mod_eq_of_lt h]
  rw [if_neg (by unfold IDLE_TASK_ID; omega)]

/-! ## Claim C5: the error taxonomy and success behaviour of spawn -/

/-- C5: spawn fails with `InvalidPriority` when the requested priority exceeds
`MAX_PRIORITY`, with `NotInitialized` before `init`, and with `TaskFull` when
the task table or the target priority queue is saturated; otherwise it
succeeds, allocating a fresh (absent from the table) non-zero TaskId and
enqueueing the new task at the tail of the queue of its priority.  Freshness
holds whenever the alive ids are bounded by `last_task_id` and the allocation
counter has not reached the wrap-around point. -/
theorem spawn_spec (pr sp : Nat) (s : Option SchedulerState) :
    (MAX_PRIORITY < pr → spawn pr sp s = (.error .InvalidPriority, s)) ∧
    (pr ≤ MAX_PRIORITY → s = none →
      spawn pr sp s = (.error .NotInitialized, none)) ∧
    (∀ st, pr ≤ MAX_PRIORITY → s = some st →
      (∀ kv ∈ st.tasks, kv.1 ≤ st.last_task_id) →
      st.last_task_id + 1 < USIZE_MOD →
      allocTaskId st.last_task_id ≠ IDLE_TASK_ID ∧
      mapLookup st.tasks (allocTaskId st.last_task_id) = none ∧
      (MAX_NUM_TASKS ≤ st.tasks.length →
        spawn pr sp s = (.error .TaskFull,
          some { st with last_task_id := allocTaskId st.last_task_id })) ∧
      (st.tasks.length < MAX_NUM_TASKS → QUEUE_LEN ≤ (st.queues pr).length →
        spawn pr sp s = (.error .TaskFull,
          some { st with
            last_task_id := allocTaskId st.last_task_id,
            tasks := st.tasks ++ [(allocTaskId st.last_task_id, ⟨sp, pr, false⟩)] })) ∧
      (st.tasks.length < MAX_NUM_TASKS → (st.queues pr).length < QUEUE_LEN →
        spawn pr sp s = (.ok (allocTaskId st.last_task_id),
          some { st with
            last_task_id := allocTaskId st.last_task_id,
            tasks := st.tasks ++ [(allocTaskId st.last_task_id, ⟨sp, pr, false⟩)],
            queues := Function.update st.queues pr
              (st.queues pr ++ [allocTaskId st.last_task_id]),
            priority_map := st.priority_map ||| (1 <<< pr) }))) := by
  refine ⟨?_, ?_, ?_⟩
  · intro hpr
    unfold spawn
    rw [if_pos hpr]
  · intro hpr hnone
    subst hnone
    unfold spawn
    rw [if_neg (by omega)]
  · intro st hpr hsome hbound hnowrap
    subst hsome
    have hfresh : mapLookup st.tasks (allocTaskId st.last_task_id) = none := by
      apply mapLookup_none_of_forall_lt
      intro kv hkv
      rw [allocTaskId_eq _ hnowrap]
      exact Nat.lt_succ_of_le (hbound kv hkv)
    refine ⟨allocTaskId_ne_idle _, hfresh, ?_, ?_, ?_⟩
    · intro hfull
      unfold spawn
      rw [if_neg (by omega)]
      simp only
      have hins : mapInsert st.tasks (allocTaskId st.last_task_id)
          ⟨sp, pr, false⟩ = none := by
        unfold mapInsert
        rw [hfresh]
        simp only [Option.isSome_none, Bool.false_eq_true, if_false]
        rw [if_neg (by omega)]
      rw [hins]
    · intro hroom hqfull
      unfold spawn
      rw [if_neg (by omega)]
      simp only
      have hins : mapInsert st.tasks (allocTaskId st.last_task_id)
          ⟨sp, pr, false⟩ =
          some (st.tasks ++ [(allocTaskId st.last_task_id, ⟨sp, pr, false⟩)]) := by
        unfold mapInsert
        rw [hfresh]
        simp only [Option.isSome_none, Bool.false_eq_true, if_false]
        rw [if_pos hroom]
      rw [hins]
      have henq : enqueue_task st.queues st.priority_map
          (allocTaskId st.last_task_id) pr = none := by
        unfold enqueue_task
        rw [if_neg (by omega)]
      rw [henq]
    · intro hroom hqroom
      unfold spawn
      rw [if_neg (by omega)]
      simp only
      have hins : mapInsert st.tasks (allocTaskId st.last_task_id)
          ⟨sp, pr, false⟩ =
          some (st.tasks ++ [(allocTaskId st.last_task_id, ⟨sp, pr, false⟩)]) := by
        unfold mapInsert
        rw [hfresh]
        simp only [Option.isSome_none, Bool.false_eq_true, if_false]
        rw [if_pos hroom]
      rw [hins]
      have henq : enqueue_task st.queues st.priority_map
          (allocTaskId st.last_task_id) pr =
          some (Function.update st.queues pr
            (st.queues pr ++ [allocTaskId st.last_task_id]),
            st.priority_map ||| (1 <<< pr)) := by
        unfold enqueue_task
        rw [if_pos hqroom]
      rw [henq]

/-- Witness for C5: spawning at priority 5 on the freshly initialized state
succeeds with the fresh non-zero id 1, enqueued at the tail of queue 5. -/
theorem spawn_spec_witness :
    allocTaskId initState.last_task_id ≠ IDLE_TASK_ID ∧
      mapLookup initState.tasks (allocTaskId initState.last_task_id) = none ∧
      spawn 5 77 (some initState) = (.ok (allocTaskId initState.last_task_id),
        some { initState with
          last_task_id := allocTaskId initState.last_task_id,
          tasks := initState.tasks ++
            [(allocTaskId initState.last_task_id, ⟨77, 5, false⟩)],
          queues := Function.update initState.queues 5
            (initState.queues 5 ++ [allocTaskId initState.last_task_id]),
          priority_map := initState.priority_map ||| (1 <<< 5) }) := by
  have h := (spawn_spec 5 77 (some initState)).2.2 initState (by decide) rfl
    (by decide) (by norm_num [USIZE_MOD, initState, IDLE_TASK_ID])
  exact ⟨h.1, h.2.1, h.2.2.2.2 (by decide) (by decide)⟩

/-! ## Claim C10: the frame of a table-full spawn failure -/

/-- C10: when spawn fails with `TaskFull` because the task-table insert fails
(the fresh id is absent and the table is saturated), the task table, ready
queues, priority bitmap and current task are unchanged, but `last_task_id`
has already advanced to the id the failed spawn would have used, consuming
one TaskId from the allocation sequence. -/
theorem spawn_tableFull_frame (pr sp : Nat) (st : SchedulerState)
    (hpr : pr ≤ MAX_PRIORITY)
    (hfresh : mapLookup st.tasks (allocTaskId st.last_task_id) = none)
    (hfull : MAX_NUM_TASKS ≤ st.tasks.length) :
    spawn pr sp (some st) = (.error .TaskFull,
      some { st with last_task_id := allocTaskId st.last_task_id }) := by
  unfold spawn
  rw [if_neg (by omega)]
  simp only
  have hins : mapInsert st.tasks (allocTaskId st.last_task_id)
      ⟨sp, pr, false⟩ = none := by
    unfold mapInsert
    rw [hfresh]
    simp only [Option.isSome_none, Bool.false_eq_true, if_false]
    rw [if_neg (by omega)]
  rw [hins]

/-- A concrete saturated task table: ids 0..15. -/
def fullTasks : TaskMap := (List.range MAX_NUM_TASKS).map fun i => (i, ⟨0, 1, false⟩)

/-- A concrete scheduler state whose task table is saturated. -/
def fullState : SchedulerState :=
  { tasks := fullTasks
  , last_task_id := 15
  , queues := Function.update (fun _ => []) 0 [IDLE_TASK_ID]
  , priority_map := 1
  , current_task := IDLE_TASK_ID
  , started := false }

/-- Witness for C10: spawning into the saturated table fails with `TaskFull`
yet advances `last_task_id` from 15 to 16. -/
theorem spawn_tableFull_frame_witness :
    1 ≤ MAX_PRIORITY ∧
      mapLookup fullState.tasks (allocTaskId fullState.last_task_id) = none ∧
      MAX_NUM_TASKS ≤ fullState.tasks.length ∧
      spawn 1 0 (some fullState) = (.error .TaskFull,
        some { fullState with last_task_id := allocTaskId fullState.last_task_id }) :=
  ⟨by decide, by decide, by decide,
    spawn_tableFull_frame 1 0 fullState (by decide) (by decide) (by decide)⟩

/-! ## Claim C7: idempotence of block_task and unblock_task -/

/-- C7: for a live task id, blocking an already-blocked task returns `Ok` and
leaves the scheduler state unchanged, and unblocking a task that is not
blocked returns `Ok` and leaves the scheduler state unchanged. -/
theorem block_unblock_idempotent (id : Nat) (st : SchedulerState)
    (t : TaskInfo) (hl : mapLookup st.tasks id = some t) :
    (t.blocked = true → block_task id (some st) = (.ok (), some st)) ∧
    (t.blocked = false → unblock_task id (some st) = (.ok (), some st)) := by
  constructor
  · intro hb
    simp only [block_task]
    rw [hl]
    simp only [hb, if_true]
  · intro hb
    simp only [unblock_task]
    rw [hl]
    simp only [hb, if_true]

/-- A concrete state with a blocked task 1 and an unblocked idle task 0. -/
def idemState : SchedulerState :=
  { tasks := [(0, ⟨0, 0, false⟩), (1, ⟨100, 1, true⟩)]
  , last_task_id := 1
  , queues := Function.update (fun _ => []) 0 [0]
  , priority_map := 1
  , current_task := 0
  , started := false }

/-- Witness for C7 on `idemState`. -/
theorem block_unblock_idempotent_witness :
    mapLookup idemState.tasks 1 = some ⟨100, 1, true⟩ ∧
      mapLookup idemState.tasks 0 = some ⟨0, 0, false⟩ ∧
      block_task 1 (some idemState) = (.ok (), some idemState) ∧
      unblock_task 0 (some idemState) = (.ok (), some idemState) :=
  ⟨rfl, rfl, (block_unblock_idempotent 1 idemState ⟨100, 1, true⟩ rfl).1 rfl,
    (block_unblock_idempotent 0 idemState ⟨0, 0, false⟩ rfl).2 rfl⟩

/-! ## Claim C6: wait_until / wait_task_until -/

theorem block_task_result_cases (id : Nat) (s : Option SchedulerState) :
    (block_task id s).1 = .ok () ∨ (block_task id s).1 = .error .NotFound ∨
      (block_task id s).1 = .error .NotInitialized := by
  cases s with
  | none => right; right; rfl
  | some st =>
    simp only [block_task]
    cases hl : mapLookup st.tasks id with
    | none => right; left; rfl
    | some t =>
      by_cases hb : t.blocked
      · left
        simp [hb]
      · obtain ⟨qs, pm, hrm⟩ :
            ∃ qs pm, remove_task_from_queue st.queues st.priority_map id
              t.priority = (qs, pm) := ⟨_, _, rfl⟩
        left
        simp [hb, hrm]

theorem block_task_blocks {id : Nat} {st : SchedulerState} {t : TaskInfo}
    (hl : mapLookup st.tasks id = some t) :
    (block_task id (some st)).1 = .ok () ∧
      ∃ st' t', (block_task id (some st)).2 = some st' ∧
        mapLookup st'.tasks id = some t' ∧ t'.blocked = true := by
  by_cases hb : t.blocked
  · have heq : block_task id (some st) = (.ok (), some st) := by
      simp only [block_task]
      rw [hl]
      simp only [hb, if_true]
    rw [heq]
    exact ⟨rfl, st, t, rfl, hl, hb⟩
  · obtain ⟨qs, pm, hrm⟩ :
        ∃ qs pm, remove_task_from_queue st.queues st.priority_map id
          t.priority = (qs, pm) := ⟨_, _, rfl⟩
    have heq : block_task id (some st) = (.ok (), some { st with
        tasks := mapUpdate st.tasks id fun u => { u with blocked := true },
        queues := qs, priority_map := pm }) := by
      simp only [block_task]
      rw [hl]
      simp only [hb, if_false]
      rw [hrm]
      simp
    rw [heq]
    refine ⟨rfl, _, { t with blocked := true }, rfl, ?_, rfl⟩
    exact mapLookup_mapUpdate_self (fun u => { u with blocked := true }) hl

/-- C6: for a task id, `wait_task_until(deadline, id)` (and hence
`wait_until` for the current task) returns `Ok` immediately without touching
the heap or the scheduler whenever `deadline ≤ now`; when `deadline > now` it
returns `TimerFull` exactly when the heap is saturated, leaving everything
unchanged (the task is not blocked); otherwise it pushes `(deadline, id)` onto
the heap, never returns `TimerFull`, and — when the id refers to a live task —
returns `Ok` with the task blocked. -/
theorem wait_until_spec (time task_id : Nat) (g : GlobalState)
    (tm : TimerState) (htm : g.timer = some tm) :
    (time ≤ tm.time → wait_task_until time task_id g = (.ok (), g)) ∧
    (tm.time < time → MAX_TIMER_REGS ≤ tm.queue.length →
      wait_task_until time task_id g = (.error .TimerFull, g)) ∧
    (tm.time < time → tm.queue.length < MAX_TIMER_REGS →
      (wait_task_until time task_id g).2.timer =
        some { tm with queue := heapInsert ⟨time, task_id⟩ tm.queue } ∧
      (wait_task_until time task_id g).1 ≠ .error .TimerFull ∧
      ∀ st t, g.sched = some st → mapLookup st.tasks task_id = some t →
        ((wait_task_until time task_id g).1 = .ok () ∧
          ∃ st' t', (wait_task_until time task_id g).2.sched = some st' ∧
            mapLookup st'.tasks task_id = some t' ∧ t'.blocked = true)) := by
  refine ⟨?_, ?_, ?_⟩
  · intro hle
    simp only [wait_task_until]
    rw [htm]
    simp only [hle, if_true]
  · intro hlt hfull
    simp only [wait_task_until]
    rw [htm]
    simp only [if_neg (by omega : ¬time ≤ tm.time),
      if_neg (by omega : ¬tm.queue.length < MAX_TIMER_REGS)]
  · intro hlt hroom
    have hunf : wait_task_until time task_id g =
        ((block_task task_id g.sched).1,
          { sched := (block_task task_id g.sched).2
          , timer := some { tm with
              queue := heapInsert ⟨time, task_id⟩ tm.queue } }) := by
      simp only [wait_task_until]
      rw [htm]
      simp only [if_neg (by omega : ¬time ≤ tm.time), hroom, if_true]
    rw [hunf]
    refine ⟨rfl, ?_, ?_⟩
    · show (block_task task_id g.sched).1 ≠ .error .TimerFull
      rcases block_task_result_cases task_id g.sched with h | h | h <;>
        rw [h] <;> simp
    · intro st t hst hl
      rw [hst]
      obtain ⟨hok, st', t', hst', hl', hb'⟩ := block_task_blocks hl
      exact ⟨hok, st', t', hst', hl', hb'⟩

/-- Witness for C6: waiting until tick 1 from the freshly initialized kernel
(current task 0, timer at 0, empty heap) pushes the registration and blocks
the idle task. -/
theorem wait_until_spec_witness :
    (wait_task_until 1 0 initGlobal).2.timer = some ⟨0, [⟨1, 0⟩]⟩ ∧
      (wait_task_until 1 0 initGlobal).1 = .ok () ∧
      ∃ st' t', (wait_task_until 1 0 initGlobal).2.sched = some st' ∧
        mapLookup st'.tasks 0 = some t' ∧ t'.blocked = true := by
  have h := (wait_until_spec 1 0 initGlobal ⟨0, []⟩ rfl).2.2 (by decide) (by decide)
  have h2 := h.2.2 initState ⟨0, 0, false⟩ rfl rfl
  exact ⟨h.1, h2.1, h2.2⟩

/-! ## Claim C1: tick services at most ONE expired entry (code bug) -/

/-- A reachable scenario: two tasks (ids 1 and 2, priority 1) registered for
deadline 1 and blocked, built from the public operations. -/
def tickScenario : GlobalState :=
  (wait_task_until 1 2 ((wait_task_until 1 1
    { sched := (spawn 1 200 ((spawn 1 100 (some initState)).2)).2
    , timer := some ⟨0, []⟩ }).2)).2

/-- C1 fails on the code: `tick` uses `if` where the spec demands a drain
loop.  In `tickScenario` both registrations have deadline 1; after a single
`tick()` the counter is 1, only task 1 was unblocked, the entry `(1, 2)` is
still the heap root with deadline `1 ≤ 1`, and task 2 is still blocked —
contradicting "pops every heap entry whose deadline ≤ the new counter" and
"the heap root, if present, has a deadline strictly greater than the current
tick counter". -/
theorem tick_single_expiry :
    tickScenario.timer = some ⟨0, [⟨1, 1⟩, ⟨1, 2⟩]⟩ ∧
      (tick tickScenario).timer = some ⟨1, [⟨1, 2⟩]⟩ ∧
      (∃ st, (tick tickScenario).sched = some st ∧
        mapLookup st.tasks 2 = some ⟨200, 1, true⟩ ∧
        mapLookup st.tasks 1 = some ⟨100, 1, false⟩) :=
  ⟨rfl, rfl, ⟨_, rfl, rfl, rfl⟩⟩

/-! ## Claim C2: which bitmap does select_task's MSB refer to? -/

theorem enqueue_task_queues_eq {qs : Nat → List Nat} {pm id p : Nat}
    {qs' : Nat → List Nat} {pm' : Nat}
    (h : enqueue_task qs pm id p = some (qs', pm')) :
    qs' = Function.update qs p (qs p ++ [id]) ∧ pm' = pm ||| (1 <<< p) := by
  unfold enqueue_task at h
  split at h
  · injection h with h
    injection h with h1 h2
    exact ⟨h1.symm, h2.symm⟩
  · exact absurd h (by simp)

/-- Queue entries name live tasks of the queue's priority. -/
def QueueCoherent (st : SchedulerState) : Prop :=
  ∀ p id, id ∈ st.queues p →
    ∃ t, mapLookup st.tasks id = some t ∧ t.priority = p

theorem select_task_stage1_coherent {sp : Nat} {st st1 : SchedulerState}
    (hC : QueueCoherent st) (h : select_task_stage1 sp st = some st1) :
    QueueCoherent st1 := by
  unfold select_task_stage1 at h
  cases hl : mapLookup st.tasks st.current_task with
  | none =>
    rw [hl] at h
    injection h with h
    subst h
    exact hC
  | some t0 =>
    rw [hl] at h
    by_cases hbl : t0.blocked
    · simp only [hbl, if_true] at h
      injection h with h
      subst h
      intro p id hid
      obtain ⟨t, hlt, hpr⟩ := hC p id hid
      by_cases hcur : id = st.current_task
      · subst hcur
        exact ⟨{ t with stack_pointer := sp },
          mapLookup_mapUpdate_self (fun u => { u with stack_pointer := sp })
            hlt, hpr⟩
      · exact ⟨t, by
          rw [mapLookup_mapUpdate_ne _ hcur]
          exact hlt, hpr⟩
    · simp only [hbl, if_false] at h
      cases henq : enqueue_task st.queues st.priority_map st.current_task
          t0.priority with
      | none => rw [henq] at h; exact absurd h (by simp)
      | some qspm =>
        obtain ⟨qs, pm⟩ := qspm
        rw [henq] at h
        injection h with h
        subst h
        obtain ⟨hqs, hpm⟩ := enqueue_task_queues_eq henq
        intro p id hid
        simp only [hqs] at hid
        have hlook : ∀ j t, mapLookup st.tasks j = some t →
            ∃ t', mapLookup (mapUpdate st.tasks st.current_task
              fun u => { u with stack_pointer := sp }) j = some t' ∧
              t'.priority = t.priority := by
          intro j t hjt
          by_cases hj : j = st.current_task
          · subst hj
            exact ⟨{ t with stack_pointer := sp },
              mapLookup_mapUpdate_self (fun u => { u with stack_pointer := sp })
                hjt, rfl⟩
          · exact ⟨t, by
              rw [mapLookup_mapUpdate_ne _ hj]
              exact hjt, rfl⟩
        by_cases hp : p = t0.priority
        · subst hp
          rw [Function.update_same] at hid
          rcases List.mem_append.mp hid with hmem | hmem
          · obtain ⟨t, hlt, hpr⟩ := hC _ id hmem
            obtain ⟨t', hlt', hpr'⟩ := hlook id t hlt
            exact ⟨t', hlt', by rw [hpr', hpr]⟩
          · simp only [List.mem_singleton] at hmem
            subst hmem
            obtain ⟨t', hlt', hpr'⟩ := hlook st.current_task t0 hl
            exact ⟨t', hlt', hpr'⟩
        · rw [Function.update_noteq hp] at hid
          obtain ⟨t, hlt, hpr⟩ := hC p id hid
          obtain ⟨t', hlt', hpr'⟩ := hlook id t hlt
          exact ⟨t', hlt', by rw [hpr', hpr]⟩

/-- C2 amended: whenever `select_task` succeeds on an initialized, coherent
scheduler state, it returns the saved stack pointer of some task whose
priority equals the bit-index of the most-significant set bit of the priority
bitmap as it stands AFTER step 1 — i.e. after the outgoing task has been
re-enqueued — not of the bitmap at entry. -/
theorem select_returns_highest_after_reenqueue {sp ret : Nat}
    {st st1 stf : SchedulerState} (hC : QueueCoherent st)
    (hs1 : select_task_stage1 sp st = some st1)
    (h : select_task sp (some st) = some (ret, stf)) :
    ∃ t, mapLookup stf.tasks stf.current_task = some t ∧
      ret = t.stack_pointer ∧
      t.priority = bitmapHighestPriority st1.priority_map := by
  have hC1 := select_task_stage1_coherent hC hs1
  unfold select_task at h
  simp only at h
  rw [hs1] at h
  simp only at h
  by_cases h0 : st1.priority_map = 0
  · simp only [h0, if_true] at h
    exact Option.noConfusion h
  · simp only [h0, if_false] at h
    obtain ⟨r, qs2, pm2, hdq⟩ :
        ∃ r qs2 pm2, dequeue_task st1.queues st1.priority_map
          (31 - u32_leading_zeros st1.priority_map) = (r, qs2, pm2) :=
      ⟨_, _, _, rfl⟩
    rw [hdq] at h
    cases r with
    | none => simp at h
    | some next_id =>
      simp only at h
      have hmem : next_id ∈
          st1.queues (31 - u32_leading_zeros st1.priority_map) := by
        unfold dequeue_task at hdq
        cases hq : st1.queues (31 - u32_leading_zeros st1.priority_map) with
        | nil => rw [hq] at hdq; simp at hdq
        | cons x rest =>
          rw [hq] at hdq
          simp only [Prod.mk.injEq, Option.some.injEq] at hdq
          rw [hdq.1]
          exact List.mem_cons_self _ _
      obtain ⟨t, hlt, hpr⟩ := hC1 _ next_id hmem
      cases hl2 : mapLookup st1.tasks next_id with
      | none => rw [hl2] at h; simp at h
      | some next =>
        rw [hl2] at h
        simp only [Option.some.injEq, Prod.mk.injEq] at h
        obtain ⟨hret, hstf⟩ := h
        subst hstf
        refine ⟨next, hl2, hret.symm, ?_⟩
        rw [hlt] at hl2
        injection hl2 with he
        rw [he] at hpr
        exact hpr

/-- The scheduler state after init, one spawn at priority 1, and one context
switch (the spawned task becomes current; the only ready tasks are the two
copies of idle in queue 0, so the bitmap at entry to the next `select_task`
is `0b1` with MSB 0). -/
def c2Mid : Option SchedulerState := (spawn 1 100 (some initState)).2

/-- C2 as stated is false: invoking `select_task(300)` on the state reached
after init/spawn/select — whose non-zero bitmap has MSB 0 at entry — returns
stack pointer 300, which is not the saved SP of any priority-0 task (neither
at entry nor at exit); the dispatched task has priority 1 because the
outgoing priority-1 task is re-enqueued before the MSB is read. -/
theorem select_task_msb_at_entry_cex :
    ∃ st, select_task 200 c2Mid = some (100, st) ∧
      st.priority_map ≠ 0 ∧
      bitmapHighestPriority st.priority_map = 0 ∧
      ∃ st', select_task 300 (some st) = some (300, st') ∧
        (∀ kv ∈ st.tasks, kv.2.priority = 0 → ¬kv.2.stack_pointer = 300) ∧
        (∀ kv ∈ st'.tasks, kv.2.priority = 0 → ¬kv.2.stack_pointer = 300) ∧
        mapLookup st'.tasks st'.current_task = some ⟨300, 1, false⟩ := by
  refine ⟨_, rfl, by decide, by decide, _, rfl, by decide, by decide, rfl⟩

/-- Witness for the amended C2: on the freshly initialized state (coherent
queues), `select_task(42)` re-enqueues idle, and returns idle's updated SP 42
at priority 0 = MSB of the post-re-enqueue bitmap. -/
theorem select_returns_highest_after_reenqueue_witness :
    ∃ st1 stf t, select_task_stage1 42 initState = some st1 ∧
      select_task 42 (some initState) = some (42, stf) ∧
      mapLookup stf.tasks stf.current_task = some t ∧
      (42 : Nat) = t.stack_pointer ∧
      t.priority = bitmapHighestPriority st1.priority_map := by
  have hC : QueueCoherent initState := by
    intro p id hid
    by_cases hp : p = 0
    · subst hp
      simp only [initState] at hid
      rw [Function.update_same] at hid
      simp only [List.mem_singleton] at hid
      subst hid
      exact ⟨⟨0, 0, false⟩, rfl, rfl⟩
    · exfalso
      have hempty : initState.queues p = [] := by
        show Function.update (fun _ => []) 0 [IDLE_TASK_ID] p = []
        rw [Function.update_noteq hp]
      rw [hempty] at hid
      exact List.not_mem_nil _ hid
  obtain ⟨st1, hs1⟩ : ∃ st1, select_task_stage1 42 initState = some st1 :=
    ⟨_, rfl⟩
  obtain ⟨stf, hsel⟩ : ∃ stf, select_task 42 (some initState) = some (42, stf) :=
    ⟨_, rfl⟩
  obtain ⟨t, hlt, hret, hpr⟩ :=
    select_returns_highest_after_reenqueue hC hs1 hsel
  exact ⟨st1, stf, t, hs1, hsel, hlt, hret, hpr⟩

/-! ## Claim C8: Futex::wake -/

/-- C8 amended: when every `unblock_task` performed on the popped waiters
succeeds (each popped id names a live task whose enqueue has room), `wake(n)`
pops exactly `min(n, queue length)` waiters from the head, unblocking each in
order, and the final wait queue is the remaining suffix; when an unblock
fails, the error propagates immediately and the remaining waiters stay
queued (shown by `futex_wake_cex`). -/
theorem futex_wake_drains {num : Nat} {q : List Nat} {s : Option SchedulerState}
    (h : wakeAllOk (q.take num) s = true) :
    futexWake num q s = (.ok (), q.drop num, unblockFold (q.take num) s) := by
  induction num generalizing q s with
  | zero => simp [futexWake, wakeLoop, unblockFold]
  | succ n ih =>
    cases q with
    | nil => simp [futexWake, wakeLoop, unblockFold]
    | cons id rest =>
      simp only [List.take_succ_cons] at h
      unfold wakeAllOk at h
      obtain ⟨r, s1, hu⟩ :
          ∃ r s1, unblock_task id s = (r, s1) := ⟨_, _, rfl⟩
      rw [hu] at h
      cases r with
      | error e => simp at h
      | ok u =>
        simp only at h
        show wakeLoop (n + 1) (id :: rest) s = _
        unfold wakeLoop
        simp only
        rw [hu]
        simp only
        have hrec := ih (q := rest) (s := s1) h
        unfold futexWake at hrec
        rw [hrec]
        simp only [List.drop_succ_cons, List.take_succ_cons]
        have hfold : unblockFold (id :: rest.take n) s =
            unblockFold (rest.take n) s1 := by
          unfold unblockFold
          rw [List.foldl_cons, hu]
        rw [hfold]

/-- The scheduler state after spawning task 1 and removing it again: only
idle remains alive. -/
def wakeCexSched : Option SchedulerState :=
  (spawn 1 100 (some initState)).2.map fun st => (remove_task 1 st).2

/-- C8 as stated is false: with wait queue `[1, 0]` where waiter 1 has been
removed (a handle outliving its task), `wake(2)` pops waiter 1, its
`unblock_task` fails with `NotFound`, the `?` propagates the error out of the
loop and waiter 0 stays queued — only one waiter was removed although
`min(2, 2) = 2` and the queue was not empty. -/
theorem futex_wake_cex :
    (futexWake 2 [1, 0] wakeCexSched).1 = .error .NotFound ∧
      (futexWake 2 [1, 0] wakeCexSched).2.1 = [0] := ⟨rfl, rfl⟩

/-- Witness for the amended C8: waking one waiter (idle, alive and not
blocked) empties a singleton wait queue with result `Ok`. -/
theorem futex_wake_drains_witness :
    wakeAllOk (([0] : List Nat).take 1) (some initState) = true ∧
      futexWake 1 [0] (some initState) =
        (.ok (), ([0] : List Nat).drop 1,
          unblockFold (([0] : List Nat).take 1) (some initState)) :=
  ⟨rfl, futex_wake_drains rfl⟩

/-! ## Claim C4: the current task and the ready queues -/

/-- Every queue entry names a live, unblocked task of the queue's priority. -/
def EntriesLive (st : SchedulerState) : Prop :=
  ∀ p id, id ∈ st.queues p →
    ∃ t, mapLookup st.tasks id = some t ∧ t.priority = p ∧ t.blocked = false

/-- No non-idle id occurs twice in a ready queue. -/
def NoDupQ (st : SchedulerState) : Prop :=
  ∀ p id, id ≠ IDLE_TASK_ID → (st.queues p).count id ≤ 1

/-- The payload of claim C4, restricted to non-idle current tasks. -/
def CurNotQueued (st : SchedulerState) : Prop :=
  st.current_task ≠ IDLE_TASK_ID → ∀ p, st.current_task ∉ st.queues p

/-- Alive ids and the current id never exceed the allocation counter. -/
def IdsBounded (st : SchedulerState) : Prop :=
  (∀ kv ∈ st.tasks, kv.1 ≤ st.last_task_id) ∧
    st.current_task ≤ st.last_task_id

/-- Idle occurs at most twice in queue 0, and at most once while it is the
current task, alive and unblocked (select_task transiently adds the second
copy). -/
def IdleCount (st : SchedulerState) : Prop :=
  (st.queues 0).count IDLE_TASK_ID ≤ 2 ∧
    (st.current_task = IDLE_TASK_ID →
      ∀ t, mapLookup st.tasks IDLE_TASK_ID = some t → t.blocked = false →
        (st.queues 0).count IDLE_TASK_ID ≤ 1)

/-- The full invariant needed for the amended claim C4. -/
def Inv4 (st : SchedulerState) : Prop :=
  EntriesLive st ∧ NoDupQ st ∧ CurNotQueued st ∧ IdsBounded st ∧ IdleCount st

/-- The restricted operation relation for the amended C4: `unblock_task` (and
the timer's internal unblock) is never applied to the currently executing
task, and `spawn` never runs at the `usize` wrap-around point of the id
allocator. -/
inductive StepR : GlobalState → GlobalState → Prop where
  | spawn (g : GlobalState) (priority initial_sp : Nat)
      (hw : ∀ st, g.sched = some st → st.last_task_id + 1 < USIZE_MOD) :
      StepR g { g with sched := (spawn priority initial_sp g.sched).2 }
  | select (g : GlobalState) (orig_sp ret : Nat) (st : SchedulerState) :
      select_task orig_sp g.sched = some (ret, st) →
      StepR g { g with sched := some st }
  | block (g : GlobalState) (id : Nat) :
      StepR g { g with sched := (block_task id g.sched).2 }
  | unblock (g : GlobalState) (id : Nat)
      (hc : ∀ st, g.sched = some st → id ≠ st.current_task) :
      StepR g { g with sched := (unblock_task id g.sched).2 }
  | remove (g : GlobalState) (id : Nat) (st : SchedulerState) :
      g.sched = some st →
      StepR g { g with sched := some (remove_task id st).2 }
  | tickStep (g : GlobalState)
      (hc : ∀ tm st top rest, g.timer = some tm → g.sched = some st →
        tm.queue = top :: rest → top.time ≤ tm.time + 1 →
        top.task_id ≠ st.current_task) :
      StepR g (handle_tick g)
  | wait (g : GlobalState) (time task_id : Nat) :
      StepR g (wait_task_until time task_id g).2

/-- Reachability under the restricted relation. -/
inductive ReachableR : GlobalState → Prop where
  | init : ReachableR initGlobal
  | step {g g' : GlobalState} : ReachableR g → StepR g g' → ReachableR g'

/-! Auxiliary lookup lemmas for appended and filtered task maps. -/

theorem mapLookup_append_other {m : TaskMap} {k j : Nat} {v : TaskInfo}
    (h : j ≠ k) : mapLookup (m ++ [(k, v)]) j = mapLookup m j := by
  induction m with
  | nil => simp [mapLookup, h]
  | cons kv rest ih =>
    obtain ⟨k0, v0⟩ := kv
    show mapLookup ((k0, v0) :: (rest ++ [(k, v)])) j = _
    unfold mapLookup
    by_cases hj : j = k0
    · rw [if_pos hj, if_pos hj]
    · rw [if_neg hj, if_neg hj]
      exact ih

theorem mapLookup_append_self {m : TaskMap} {k : Nat} {v : TaskInfo}
    (h : mapLookup m k = none) : mapLookup (m ++ [(k, v)]) k = some v := by
  induction m with
  | nil => simp [mapLookup]
  | cons kv rest ih =>
    obtain ⟨k0, v0⟩ := kv
    unfold mapLookup at h
    show mapLookup ((k0, v0) :: (rest ++ [(k, v)])) k = _
    unfold mapLookup
    by_cases hk : k = k0
    · rw [if_pos hk] at h
      exact Option.noConfusion h
    · rw [if_neg hk] at h
      rw [if_neg hk]
      exact ih h

theorem mapLookup_mapRemove_ne {m : TaskMap} {k j : Nat} (h : j ≠ k) :
    mapLookup (mapRemove m k) j = mapLookup m j := by
  induction m with
  | nil => rfl
  | cons kv rest ih =>
    obtain ⟨k0, v0⟩ := kv
    by_cases hk : k0 = k
    · subst hk
      have hL : mapRemove ((k0, v0) :: rest) k0 = mapRemove rest k0 := by
        unfold mapRemove
        rw [List.filter_cons_of_neg (by simp)]
      have hR : mapLookup ((k0, v0) :: rest) j = mapLookup rest j := by
        show (if j = k0 then some v0 else mapLookup rest j) = mapLookup rest j
        rw [if_neg h]
      rw [hL, hR]
      exact ih
    · have hL : mapRemove ((k0, v0) :: rest) k =
          (k0, v0) :: mapRemove rest k := by
        unfold mapRemove
        rw [List.filter_cons_of_pos (by simpa using hk)]
      rw [hL]
      by_cases hj : j = k0
      · show (if j = k0 then some v0 else mapLookup (mapRemove rest k) j) =
          (if j = k0 then some v0 else mapLookup rest j)
        rw [if_pos hj, if_pos hj]
      · show (if j = k0 then some v0 else mapLookup (mapRemove rest k) j) =
          (if j = k0 then some v0 else mapLookup rest j)
        rw [if_neg hj, if_neg hj]
        exact ih

theorem mapLookup_mapRemove_self {m : TaskMap} {k : Nat} :
    mapLookup (mapRemove m k) k = none := by
  induction m with
  | nil => rfl
  | cons kv rest ih =>
    obtain ⟨k0, v0⟩ := kv
    by_cases hk : k0 = k
    · subst hk
      have hL : mapRemove ((k0, v0) :: rest) k0 = mapRemove rest k0 := by
        unfold mapRemove
        rw [List.filter_cons_of_neg (by simp)]
      rw [hL]
      exact ih
    · have hL : mapRemove ((k0, v0) :: rest) k =
          (k0, v0) :: mapRemove rest k := by
        unfold mapRemove
        rw [List.filter_cons_of_pos (by simpa using hk)]
      rw [hL]
      show (if k = k0 then some v0 else mapLookup (mapRemove rest k) k) = none
      rw [if_neg (fun he => hk he.symm)]
      exact ih

theorem mapLookup_mem_keys {m : TaskMap} {k : Nat} {t : TaskInfo}
    (h : mapLookup m k = some t) (hb : ∀ kv ∈ m, kv.1 ≤ (n : Nat)) : k ≤ n :=
  hb (k, t) (mapLookup_mem h)

theorem mapUpdate_keys_bound {m : TaskMap} {k n : Nat}
    {f : TaskInfo → TaskInfo} (h : ∀ kv ∈ m, kv.1 ≤ n) :
    ∀ kv ∈ mapUpdate m k f, kv.1 ≤ n := by
  intro kv hkv
  obtain ⟨kv0, hkv0, heq⟩ := List.mem_map.mp hkv
  by_cases hk : kv0.1 = k
  · simp only [hk, if_true] at heq
    subst heq
    simp only
    rw [← hk]
    exact h kv0 hkv0
  · simp only [hk, if_false] at heq
    subst heq
    exact h kv0 hkv0

theorem mapRemove_keys_bound {m : TaskMap} {k n : Nat}
    (h : ∀ kv ∈ m, kv.1 ≤ n) : ∀ kv ∈ mapRemove m k, kv.1 ≤ n :=
  fun kv hkv => h kv (List.mem_of_mem_filter hkv)

theorem count_filter_ne_le {l : List Nat} {id a : Nat} :
    (l.filter fun e => e ≠ id).count a ≤ l.count a :=
  List.Sublist.count_le (List.filter_sublist l) a

/-- A task that is alive can only sit in the queue of its own priority. -/
theorem EntriesLive_only_own_queue {st : SchedulerState} (hE : EntriesLive st)
    {id p : Nat} {t : TaskInfo} (hl : mapLookup st.tasks id = some t)
    (hp : p ≠ t.priority) : id ∉ st.queues p := by
  intro hmem
  obtain ⟨t2, hlt2, hpr2, _⟩ := hE p id hmem
  rw [hl] at hlt2
  injection hlt2 with he
  rw [← he] at hpr2
  exact hp hpr2.symm

/-- A blocked task is in no ready queue. -/
theorem EntriesLive_blocked_not_queued {st : SchedulerState}
    (hE : EntriesLive st) {id : Nat} {t : TaskInfo}
    (hl : mapLookup st.tasks id = some t) (hb : t.blocked = true) :
    ∀ p, id ∉ st.queues p := by
  intro p hmem
  obtain ⟨t2, hlt2, _, hbl2⟩ := hE p id hmem
  rw [hl] at hlt2
  injection hlt2 with he
  rw [← he] at hbl2
  rw [hb] at hbl2
  exact Bool.noConfusion hbl2

/-- Introduction rule for `Inv4` phrased on raw fields, avoiding record
projections. -/
theorem Inv4_mk {tasks : TaskMap} {last : Nat} {qs : Nat → List Nat}
    {pm cur : Nat} {started : Bool}
    (hE : ∀ p id, id ∈ qs p →
      ∃ t, mapLookup tasks id = some t ∧ t.priority = p ∧ t.blocked = false)
    (hN : ∀ p id, id ≠ IDLE_TASK_ID → (qs p).count id ≤ 1)
    (hC : cur ≠ IDLE_TASK_ID → ∀ p, cur ∉ qs p)
    (hB1 : ∀ kv ∈ tasks, kv.1 ≤ last) (hB2 : cur ≤ last)
    (hIc1 : (qs 0).count IDLE_TASK_ID ≤ 2)
    (hIc2 : cur = IDLE_TASK_ID → ∀ t, mapLookup tasks IDLE_TASK_ID = some t →
      t.blocked = false → (qs 0).count IDLE_TASK_ID ≤ 1) :
    Inv4 ⟨tasks, last, qs, pm, cur, started⟩ :=
  ⟨hE, hN, hC, ⟨hB1, hB2⟩, hIc1, hIc2⟩

theorem block_task_Inv4 {id : Nat} {st st' : SchedulerState} (hI : Inv4 st)
    (h : (block_task id (some st)).2 = some st') : Inv4 st' := by
  obtain ⟨hE, hN, hC, ⟨hB1, hB2⟩, hIc1, hIc2⟩ := hI
  simp only [block_task] at h
  cases hl : mapLookup st.tasks id with
  | none =>
    rw [hl] at h
    injection h with h
    subst h
    exact ⟨hE, hN, hC, ⟨hB1, hB2⟩, hIc1, hIc2⟩
  | some t =>
    rw [hl] at h
    by_cases hbl : t.blocked
    · simp only [hbl, if_true] at h
      injection h with h
      subst h
      exact ⟨hE, hN, hC, ⟨hB1, hB2⟩, hIc1, hIc2⟩
    · simp only [hbl, if_false] at h
      obtain ⟨qs, pm, hrm⟩ :
          ∃ qs pm, remove_task_from_queue st.queues st.priority_map id
            t.priority = (qs, pm) := ⟨_, _, rfl⟩
      rw [hrm] at h
      simp only at h
      injection h with h
      subst h
      have hqs : qs = Function.update st.queues t.priority
          ((st.queues t.priority).filter fun e => e ≠ id) := by
        unfold remove_task_from_queue at hrm
        injection hrm with h1 h2
        exact h1.symm
      subst hqs
      have hqmem : ∀ p a, a ∈ Function.update st.queues t.priority
          ((st.queues t.priority).filter fun e => e ≠ id) p →
          a ∈ st.queues p ∧ ¬(p = t.priority ∧ a = id) := by
        intro p a ha
        by_cases hp : p = t.priority
        · subst hp
          rw [Function.update_same] at ha
          rw [List.mem_filter] at ha
          refine ⟨ha.1, ?_⟩
          intro hcontra
          have := ha.2
          simp [hcontra.2] at this
        · rw [Function.update_noteq hp] at ha
          exact ⟨ha, fun hcontra => hp hcontra.1⟩
      refine Inv4_mk ?_ ?_ ?_ ?_ ?_ ?_ ?_
      · intro p id2 hid2
        obtain ⟨hmem, hnot⟩ := hqmem p id2 hid2
        obtain ⟨t2, hlt2, hpr2, hbl2⟩ := hE p id2 hmem
        have hne : id2 ≠ id := by
          intro he
          subst he
          rw [hl] at hlt2
          injection hlt2 with he2
          exact hnot ⟨by rw [← hpr2, ← he2], rfl⟩
        exact ⟨t2, by
          rw [mapLookup_mapUpdate_ne _ hne]
          exact hlt2, hpr2, hbl2⟩
      · intro p a ha
        by_cases hp : p = t.priority
        · subst hp
          rw [Function.update_same]
          exact le_trans count_filter_ne_le (hN _ a ha)
        · rw [Function.update_noteq hp]
          exact hN p a ha
      · intro hcur p hmem
        exact hC hcur p (hqmem p _ hmem).1
      · exact mapUpdate_keys_bound hB1
      · exact hB2
      · by_cases hp : (0 : Nat) = t.priority
        · rw [← hp, Function.update_same]
          exact le_trans count_filter_ne_le hIc1
        · rw [Function.update_noteq hp]
          exact hIc1
      · intro hcur t0 hlt0 hbl0
        by_cases hid0 : id = IDLE_TASK_ID
        · subst hid0
          rw [mapLookup_mapUpdate_self
            (fun u => { u with blocked := true }) hl] at hlt0
          injection hlt0 with he
          rw [← he] at hbl0
          exact absurd hbl0 (by simp)
        · rw [mapLookup_mapUpdate_ne _ (fun he => hid0 he.symm)] at hlt0
          have hold := hIc2 hcur t0 hlt0 hbl0
          by_cases hp : (0 : Nat) = t.priority
          · rw [← hp, Function.update_same]
            exact le_trans count_filter_ne_le hold
          · rw [Function.update_noteq hp]
            exact hold

theorem count_singleton_self (a : Nat) : ([a] : List Nat).count a = 1 := by
  simp

theorem count_singleton_ne {a b : Nat} (h : a ≠ b) :
    ([b] : List Nat).count a = 0 :=
  List.count_eq_zero.mpr (by simp [h])

theorem unblock_task_Inv4 {id : Nat} {st st' : SchedulerState} (hI : Inv4 st)
    (hcur : id ≠ st.current_task)
    (h : (unblock_task id (some st)).2 = some st') : Inv4 st' := by
  obtain ⟨hE, hN, hC, ⟨hB1, hB2⟩, hIc1, hIc2⟩ := hI
  simp only [unblock_task] at h
  cases hl : mapLookup st.tasks id with
  | none =>
    rw [hl] at h
    injection h with h
    subst h
    exact ⟨hE, hN, hC, ⟨hB1, hB2⟩, hIc1, hIc2⟩
  | some t =>
    rw [hl] at h
    by_cases hbl : t.blocked = false
    · simp only [hbl, if_true] at h
      injection h with h
      subst h
      exact ⟨hE, hN, hC, ⟨hB1, hB2⟩, hIc1, hIc2⟩
    · have hblT : t.blocked = true := by
        revert hbl
        cases t.blocked <;> simp
      simp only [hbl, if_false] at h
      have hnotq : ∀ p, id ∉ st.queues p :=
        EntriesLive_blocked_not_queued hE hl hblT
      cases henq : enqueue_task st.queues st.priority_map id t.priority with
      | none =>
        rw [henq] at h
        injection h with h
        subst h
        refine Inv4_mk ?_ hN hC (mapUpdate_keys_bound hB1) hB2 hIc1 ?_
        · intro p id2 hid2
          obtain ⟨t2, hlt2, hpr2, hbl2⟩ := hE p id2 hid2
          have hne : id2 ≠ id := fun he => hnotq p (he ▸ hid2)
          exact ⟨t2, by
            rw [mapLookup_mapUpdate_ne _ hne]
            exact hlt2, hpr2, hbl2⟩
        · intro hcur0 t0 hlt0 hbl0
          have hid0 : id ≠ IDLE_TASK_ID := fun he => hcur (he.trans hcur0.symm)
          rw [mapLookup_mapUpdate_ne _ (fun he => hid0 he.symm)] at hlt0
          exact hIc2 hcur0 t0 hlt0 hbl0
      | some qspm =>
        obtain ⟨qs, pm⟩ := qspm
        rw [henq] at h
        injection h with h
        subst h
        obtain ⟨hqs, hpm⟩ := enqueue_task_queues_eq henq
        subst hqs
        refine Inv4_mk ?_ ?_ ?_ (mapUpdate_keys_bound hB1) hB2 ?_ ?_
        · intro p id2 hid2
          by_cases hp : p = t.priority
          · subst hp
            rw [Function.update_same] at hid2
            rcases List.mem_append.mp hid2 with hmem | hmem
            · obtain ⟨t2, hlt2, hpr2, hbl2⟩ := hE _ id2 hmem
              have hne : id2 ≠ id := fun he => hnotq _ (he ▸ hmem)
              exact ⟨t2, by
                rw [mapLookup_mapUpdate_ne _ hne]
                exact hlt2, hpr2, hbl2⟩
            · simp only [List.mem_singleton] at hmem
              subst hmem
              exact ⟨{ t with blocked := false },
                mapLookup_mapUpdate_self (fun u => { u with blocked := false })
                  hl, rfl, rfl⟩
          · rw [Function.update_noteq hp] at hid2
            obtain ⟨t2, hlt2, hpr2, hbl2⟩ := hE p id2 hid2
            have hne : id2 ≠ id := fun he => hnotq _ (he ▸ hid2)
            exact ⟨t2, by
              rw [mapLookup_mapUpdate_ne _ hne]
              exact hlt2, hpr2, hbl2⟩
        · intro p a ha
          by_cases hp : p = t.priority
          · subst hp
            rw [Function.update_same, List.count_append]
            by_cases haid : a = id
            · subst haid
              rw [List.count_eq_zero.mpr (hnotq _), count_singleton_self]
            · rw [count_singleton_ne haid]
              simpa using hN _ a ha
          · rw [Function.update_noteq hp]
            exact hN p a ha
        · intro hcur0 p
          by_cases hp : p = t.priority
          · subst hp
            rw [Function.update_same]
            intro hmem
            rcases List.mem_append.mp hmem with hmem | hmem
            · exact hC hcur0 _ hmem
            · simp only [List.mem_singleton] at hmem
              exact hcur hmem.symm
          · rw [Function.update_noteq hp]
            exact hC hcur0 p
        · by_cases hp : (0 : Nat) = t.priority
          · rw [← hp, Function.update_same, List.count_append]
            by_cases hid0 : id = IDLE_TASK_ID
            · rw [List.count_eq_zero.mpr (hid0 ▸ hnotq 0)]
              subst hid0
              rw [count_singleton_self]
              omega
            · rw [count_singleton_ne (fun he => hid0 he.symm)]
              simpa using hIc1
          · rw [Function.update_noteq hp]
            exact hIc1
        · intro hcur0 t0 hlt0 hbl0
          have hid0 : id ≠ IDLE_TASK_ID := fun he => hcur (he.trans hcur0.symm)
          rw [mapLookup_mapUpdate_ne _ (fun he => hid0 he.symm)] at hlt0
          have hold := hIc2 hcur0 t0 hlt0 hbl0
          by_cases hp : (0 : Nat) = t.priority
          · rw [← hp, Function.update_same, List.count_append]
            rw [count_singleton_ne (fun he => hid0 he.symm)]
            simpa using hold
          · rw [Function.update_noteq hp]
            exact hold

theorem remove_task_Inv4 {id : Nat} {st : SchedulerState} (hI : Inv4 st) :
    Inv4 (remove_task id st).2 := by
  obtain ⟨hE, hN, hC, ⟨hB1, hB2⟩, hIc1, hIc2⟩ := hI
  cases hl : mapLookup st.tasks id with
  | none =>
    have heq : remove_task id st = (.error .NotFound, st) := by
      unfold remove_task
      rw [hl]
    rw [heq]
    exact ⟨hE, hN, hC, ⟨hB1, hB2⟩, hIc1, hIc2⟩
  | some t =>
    obtain ⟨qs, pm, hrm⟩ :
        ∃ qs pm, remove_task_from_queue st.queues st.priority_map id
          t.priority = (qs, pm) := ⟨_, _, rfl⟩
    have hqs : qs = Function.update st.queues t.priority
        ((st.queues t.priority).filter fun e => e ≠ id) := by
      unfold remove_task_from_queue at hrm
      injection hrm with h1 h2
      exact h1.symm
    subst hqs
    have heq : remove_task id st = (.ok (), { st with
        tasks := mapRemove st.tasks id,
        queues := Function.update st.queues t.priority
          ((st.queues t.priority).filter fun e => e ≠ id),
        priority_map := pm }) := by
      unfold remove_task
      rw [hl]
      simp only
      rw [hrm]
    rw [heq]
    have hqmem : ∀ p a, a ∈ Function.update st.queues t.priority
        ((st.queues t.priority).filter fun e => e ≠ id) p →
        a ∈ st.queues p ∧ ¬(p = t.priority ∧ a = id) := by
      intro p a ha
      by_cases hp : p = t.priority
      · subst hp
        rw [Function.update_same] at ha
        rw [List.mem_filter] at ha
        refine ⟨ha.1, ?_⟩
        intro hcontra
        have := ha.2
        simp [hcontra.2] at this
      · rw [Function.update_noteq hp] at ha
        exact ⟨ha, fun hcontra => hp hcontra.1⟩
    refine Inv4_mk ?_ ?_ ?_ (mapRemove_keys_bound hB1) hB2 ?_ ?_
    · intro p id2 hid2
      obtain ⟨hmem, hnot⟩ := hqmem p id2 hid2
      obtain ⟨t2, hlt2, hpr2, hbl2⟩ := hE p id2 hmem
      have hne : id2 ≠ id := by
        intro he
        subst he
        rw [hl] at hlt2
        injection hlt2 with he2
        exact hnot ⟨by rw [← hpr2, ← he2], rfl⟩
      exact ⟨t2, by
        rw [mapLookup_mapRemove_ne hne]
        exact hlt2, hpr2, hbl2⟩
    · intro p a ha
      by_cases hp : p = t.priority
      · subst hp
        rw [Function.update_same]
        exact le_trans count_filter_ne_le (hN _ a ha)
      · rw [Function.update_noteq hp]
        exact hN p a ha
    · intro hcur p hmem
      exact hC hcur p (hqmem p _ hmem).1
    · by_cases hp : (0 : Nat) = t.priority
      · rw [← hp, Function.update_same]
        exact le_trans count_filter_ne_le hIc1
      · rw [Function.update_noteq hp]
        exact hIc1
    · intro hcur t0 hlt0 hbl0
      by_cases hid0 : id = IDLE_TASK_ID
      · subst hid0
        rw [mapLookup_mapRemove_self] at hlt0
        exact Option.noConfusion hlt0
      · rw [mapLookup_mapRemove_ne (fun he => hid0 he.symm)] at hlt0
        have hold := hIc2 hcur t0 hlt0 hbl0
        by_cases hp : (0 : Nat) = t.priority
        · rw [← hp, Function.update_same]
          exact le_trans count_filter_ne_le hold
        · rw [Function.update_noteq hp]
          exact hold

theorem spawn_Inv4 {pr sp : Nat} {st st' : SchedulerState} (hI : Inv4 st)
    (hw : st.last_task_id + 1 < USIZE_MOD)
    (h : (spawn pr sp (some st)).2 = some st') : Inv4 st' := by
  obtain ⟨hE, hN, hC, ⟨hB1, hB2⟩, hIc1, hIc2⟩ := hI
  have halloc : allocTaskId st.last_task_id = st.last_task_id + 1 :=
    allocTaskId_eq _ hw
  have hfresh : mapLookup st.tasks (allocTaskId st.last_task_id) = none := by
    apply mapLookup_none_of_forall_lt
    intro kv hkv
    rw [halloc]
    exact Nat.lt_succ_of_le (hB1 kv hkv)
  have hnotq : ∀ p, allocTaskId st.last_task_id ∉ st.queues p := by
    intro p hmem
    obtain ⟨t, hlt, _⟩ := hE p _ hmem
    rw [hfresh] at hlt
    exact Option.noConfusion hlt
  have hcurne : st.current_task ≠ allocTaskId st.last_task_id := by
    rw [halloc]
    omega
  have hlookup1 : ∀ j, j ≠ allocTaskId st.last_task_id →
      mapLookup (st.tasks ++ [(allocTaskId st.last_task_id,
        (⟨sp, pr, false⟩ : TaskInfo))]) j = mapLookup st.tasks j :=
    fun j hj => mapLookup_append_other hj
  have hB1' : ∀ kv ∈ st.tasks ++ [(allocTaskId st.last_task_id,
      (⟨sp, pr, false⟩ : TaskInfo))], kv.1 ≤ allocTaskId st.last_task_id := by
    intro kv hkv
    rcases List.mem_append.mp hkv with hmem | hmem
    · rw [halloc]
      exact le_trans (hB1 kv hmem) (Nat.le_succ _)
    · simp only [List.mem_singleton] at hmem
      subst hmem
      exact le_refl _
  unfold spawn at h
  split at h
  · injection h with h
    subst h
    exact ⟨hE, hN, hC, ⟨hB1, hB2⟩, hIc1, hIc2⟩
  · simp only at h
    cases hins : mapInsert st.tasks (allocTaskId st.last_task_id)
        ⟨sp, pr, false⟩ with
    | none =>
      rw [hins] at h
      injection h with h
      subst h
      refine Inv4_mk hE hN hC ?_ ?_ hIc1 hIc2
      · intro kv hkv
        rw [halloc]
        exact le_trans (hB1 kv hkv) (Nat.le_succ _)
      · rw [halloc]
        exact le_trans hB2 (Nat.le_succ _)
    | some tasks1 =>
      have htasks1 : tasks1 = st.tasks ++
          [(allocTaskId st.last_task_id, ⟨sp, pr, false⟩)] := by
        unfold mapInsert at hins
        rw [hfresh] at hins
        simp only [Option.isSome_none, Bool.false_eq_true, if_false] at hins
        split at hins
        · injection hins with hins
          exact hins.symm
        · exact absurd hins (by simp)
      subst htasks1
      rw [hins] at h
      cases henq : enqueue_task st.queues st.priority_map
          (allocTaskId st.last_task_id) pr with
      | none =>
        rw [henq] at h
        injection h with h
        subst h
        refine Inv4_mk ?_ hN hC hB1' ?_ hIc1 ?_
        · intro p id2 hid2
          obtain ⟨t2, hlt2, hpr2, hbl2⟩ := hE p id2 hid2
          have hne : id2 ≠ allocTaskId st.last_task_id :=
            fun he => hnotq p (he ▸ hid2)
          exact ⟨t2, by
            rw [hlookup1 id2 hne]
            exact hlt2, hpr2, hbl2⟩
        · rw [halloc]
          exact le_trans hB2 (Nat.le_succ _)
        · intro hcur0 t0 hlt0 hbl0
          rw [hlookup1 IDLE_TASK_ID
            (fun he => allocTaskId_ne_idle _ he.symm)] at hlt0
          exact hIc2 hcur0 t0 hlt0 hbl0
      | some qspm =>
        obtain ⟨qs, pm⟩ := qspm
        rw [henq] at h
        injection h with h
        subst h
        obtain ⟨hqs, hpm⟩ := enqueue_task_queues_eq henq
        subst hqs
        refine Inv4_mk ?_ ?_ ?_ hB1' ?_ ?_ ?_
        · intro p id2 hid2
          by_cases hp : p = pr
          · rw [hp] at hid2 ⊢
            rw [Function.update_same] at hid2
            rcases List.mem_append.mp hid2 with hmem | hmem
            · obtain ⟨t2, hlt2, hpr2, hbl2⟩ := hE _ id2 hmem
              have hne : id2 ≠ allocTaskId st.last_task_id :=
                fun he => hnotq _ (he ▸ hmem)
              exact ⟨t2, by
                rw [hlookup1 id2 hne]
                exact hlt2, hpr2, hbl2⟩
            · simp only [List.mem_singleton] at hmem
              subst hmem
              exact ⟨⟨sp, pr, false⟩, mapLookup_append_self hfresh, rfl, rfl⟩
          · rw [Function.update_noteq hp] at hid2
            obtain ⟨t2, hlt2, hpr2, hbl2⟩ := hE p id2 hid2
            have hne : id2 ≠ allocTaskId st.last_task_id :=
              fun he => hnotq _ (he ▸ hid2)
            exact ⟨t2, by
              rw [hlookup1 id2 hne]
              exact hlt2, hpr2, hbl2⟩
        · intro p a ha
          by_cases hp : p = pr
          · rw [hp, Function.update_same, List.count_append]
            by_cases haid : a = allocTaskId st.last_task_id
            · subst haid
              rw [List.count_eq_zero.mpr (hnotq _), count_singleton_self]
            · rw [count_singleton_ne haid]
              simpa using hN _ a ha
          · rw [Function.update_noteq hp]
            exact hN p a ha
        · intro hcur0 p
          by_cases hp : p = pr
          · rw [hp, Function.update_same]
            intro hmem
            rcases List.mem_append.mp hmem with hmem | hmem
            · exact hC hcur0 _ hmem
            · simp only [List.mem_singleton] at hmem
              exact hcurne hmem
          · rw [Function.update_noteq hp]
            exact hC hcur0 p
        · rw [halloc]
          exact le_trans hB2 (Nat.le_succ _)
        · by_cases hp : (0 : Nat) = pr
          · rw [← hp, Function.update_same, List.count_append]
            rw [count_singleton_ne (fun he => allocTaskId_ne_idle _ he.symm)]
            simpa using hIc1
          · rw [Function.update_noteq hp]
            exact hIc1
        · intro hcur0 t0 hlt0 hbl0
          rw [hlookup1 IDLE_TASK_ID
            (fun he => allocTaskId_ne_idle _ he.symm)] at hlt0
          have hold := hIc2 hcur0 t0 hlt0 hbl0
          by_cases hp : (0 : Nat) = pr
          · rw [← hp, Function.update_same, List.count_append]
            rw [count_singleton_ne (fun he => allocTaskId_ne_idle _ he.symm)]
            simpa using hold
          · rw [Function.update_noteq hp]
            exact hold

theorem select_task_stage1_Inv4 {sp : Nat} {st st1 : SchedulerState}
    (hI : Inv4 st) (h : select_task_stage1 sp st = some st1) :
    EntriesLive st1 ∧ NoDupQ st1 ∧
      (∀ kv ∈ st1.tasks, kv.1 ≤ st1.last_task_id) ∧
      (st1.queues 0).count IDLE_TASK_ID ≤ 2 ∧
      st1.current_task = st.current_task ∧
      st1.last_task_id = st.last_task_id := by
  obtain ⟨hE, hN, hC, ⟨hB1, hB2⟩, hIc1, hIc2⟩ := hI
  unfold select_task_stage1 at h
  cases hl : mapLookup st.tasks st.current_task with
  | none =>
    rw [hl] at h
    injection h with h
    subst h
    exact ⟨hE, hN, hB1, hIc1, rfl, rfl⟩
  | some t0 =>
    rw [hl] at h
    by_cases hbl : t0.blocked
    · simp only [hbl, if_true] at h
      injection h with h
      subst h
      have hnotq : ∀ p, st.current_task ∉ st.queues p :=
        EntriesLive_blocked_not_queued hE hl hbl
      refine ⟨?_, hN, mapUpdate_keys_bound
        (k := st.current_task)
        (f := fun u => { u with stack_pointer := sp }) hB1, hIc1, rfl, rfl⟩
      intro p id2 hid2
      obtain ⟨t2, hlt2, hpr2, hbl2⟩ := hE p id2 hid2
      have hne : id2 ≠ st.current_task := fun he => hnotq p (he ▸ hid2)
      exact ⟨t2, by
        rw [mapLookup_mapUpdate_ne _ hne]
        exact hlt2, hpr2, hbl2⟩
    · simp only [hbl, if_false] at h
      cases henq : enqueue_task st.queues st.priority_map st.current_task
          t0.priority with
      | none => rw [henq] at h; exact absurd h (by simp)
      | some qspm =>
        obtain ⟨qs, pm⟩ := qspm
        rw [henq] at h
        injection h with h
        subst h
        obtain ⟨hqs, hpm⟩ := enqueue_task_queues_eq henq
        subst hqs
        have hblF : t0.blocked = false := by
          revert hbl
          cases t0.blocked <;> simp
        have hlookup : ∀ j t2, mapLookup st.tasks j = some t2 →
            ∃ t3, mapLookup (mapUpdate st.tasks st.current_task
              fun u => { u with stack_pointer := sp }) j = some t3 ∧
              t3.priority = t2.priority ∧ t3.blocked = t2.blocked := by
          intro j t2 hjt
          by_cases hj : j = st.current_task
          · subst hj
            rw [hjt] at hl
            injection hl with he
            subst he
            exact ⟨{ t2 with stack_pointer := sp },
              mapLookup_mapUpdate_self
                (fun u => { u with stack_pointer := sp }) hjt, rfl, rfl⟩
          · exact ⟨t2, by
              rw [mapLookup_mapUpdate_ne _ hj]
              exact hjt, rfl, rfl⟩
        refine ⟨?_, ?_, mapUpdate_keys_bound
          (k := st.current_task)
          (f := fun u => { u with stack_pointer := sp }) hB1, ?_, rfl, rfl⟩
        · intro p id2 hid2
          simp only at hid2 ⊢
          by_cases hp : p = t0.priority
          · subst hp
            rw [Function.update_same] at hid2
            rcases List.mem_append.mp hid2 with hmem | hmem
            · obtain ⟨t2, hlt2, hpr2, hbl2⟩ := hE _ id2 hmem
              obtain ⟨t3, hlt3, hpr3, hbl3⟩ := hlookup id2 t2 hlt2
              exact ⟨t3, hlt3, by rw [hpr3, hpr2], by rw [hbl3, hbl2]⟩
            · simp only [List.mem_singleton] at hmem
              subst hmem
              obtain ⟨t3, hlt3, hpr3, hbl3⟩ := hlookup st.current_task t0 hl
              exact ⟨t3, hlt3, hpr3, by rw [hbl3, hblF]⟩
          · rw [Function.update_noteq hp] at hid2
            obtain ⟨t2, hlt2, hpr2, hbl2⟩ := hE p id2 hid2
            obtain ⟨t3, hlt3, hpr3, hbl3⟩ := hlookup id2 t2 hlt2
            exact ⟨t3, hlt3, by rw [hpr3, hpr2], by rw [hbl3, hbl2]⟩
        · intro p a ha
          simp only
          by_cases hp : p = t0.priority
          · subst hp
            rw [Function.update_same, List.count_append]
            by_cases hacur : a = st.current_task
            · subst hacur
              rw [List.count_eq_zero.mpr (hC ha _), count_singleton_self]
            · rw [count_singleton_ne hacur]
              simpa using hN _ a ha
          · rw [Function.update_noteq hp]
            exact hN p a ha
        · simp only
          by_cases hp : (0 : Nat) = t0.priority
          · rw [← hp, Function.update_same, List.count_append]
            by_cases hcur0 : st.current_task = IDLE_TASK_ID
            · have hpre := hIc2 hcur0 t0 (hcur0 ▸ hl) hblF
              rw [hcur0, count_singleton_self]
              omega
            · rw [count_singleton_ne (fun he => hcur0 he.symm)]
              simpa using hIc1
          · rw [Function.update_noteq hp]
            exact hIc1

theorem select_task_Inv4 {sp ret : Nat} {st stf : SchedulerState}
    (hI : Inv4 st) (h : select_task sp (some st) = some (ret, stf)) :
    Inv4 stf := by
  unfold select_task at h
  simp only at h
  cases hs1 : select_task_stage1 sp st with
  | none => rw [hs1] at h; simp at h
  | some st1 =>
    rw [hs1] at h
    simp only at h
    obtain ⟨E1, N1, B1, Ic1, hcur1, hlast1⟩ := select_task_stage1_Inv4 hI hs1
    by_cases h0 : st1.priority_map = 0
    · simp only [h0, if_true] at h
      exact Option.noConfusion h
    · simp only [h0, if_false] at h
      cases hq : st1.queues (31 - u32_leading_zeros st1.priority_map) with
      | nil =>
        have hdq : dequeue_task st1.queues st1.priority_map
            (31 - u32_leading_zeros st1.priority_map) =
            (none, st1.queues, clearBitIfEmpty st1.queues st1.priority_map
              (31 - u32_leading_zeros st1.priority_map)) := by
          unfold dequeue_task
          rw [hq]
        rw [hdq] at h
        simp at h
      | cons next_id rest =>
        have hdq : dequeue_task st1.queues st1.priority_map
            (31 - u32_leading_zeros st1.priority_map) =
            (some next_id,
             Function.update st1.queues
               (31 - u32_leading_zeros st1.priority_map) rest,
             clearBitIfEmpty (Function.update st1.queues
               (31 - u32_leading_zeros st1.priority_map) rest)
               st1.priority_map
               (31 - u32_leading_zeros st1.priority_map)) := by
          unfold dequeue_task
          rw [hq]
        rw [hdq] at h
        simp only at h
        cases hl2 : mapLookup st1.tasks next_id with
        | none => rw [hl2] at h; simp at h
        | some next =>
          rw [hl2] at h
          simp only [Option.some.injEq, Prod.mk.injEq] at h
          obtain ⟨hret, hstf⟩ := h
          subst hstf
          have hmemhead : next_id ∈
              st1.queues (31 - u32_leading_zeros st1.priority_map) := by
            rw [hq]
            exact List.mem_cons_self _ _
          obtain ⟨tH, hltH, hprH, hblH⟩ := E1 _ next_id hmemhead
          rw [hl2] at hltH
          injection hltH with heH
          subst heH
          refine Inv4_mk ?_ ?_ ?_ B1 ?_ ?_ ?_
          · intro p id2 hid2
            by_cases hp : p = 31 - u32_leading_zeros st1.priority_map
            · rw [hp, Function.update_same] at hid2
              have : id2 ∈ st1.queues (31 - u32_leading_zeros
                  st1.priority_map) := by
                rw [hq]
                exact List.mem_cons_of_mem _ hid2
              obtain ⟨t2, hlt2, hpr2, hbl2⟩ := E1 _ id2 this
              exact ⟨t2, hlt2, by rw [hpr2, ← hp], hbl2⟩
            · rw [Function.update_noteq hp] at hid2
              exact E1 p id2 hid2
          · intro p a ha
            by_cases hp : p = 31 - u32_leading_zeros st1.priority_map
            · rw [hp, Function.update_same]
              have hle : rest.count a ≤
                  (st1.queues (31 - u32_leading_zeros
                    st1.priority_map)).count a := by
                rw [hq]
                exact List.count_le_count_cons a next_id rest
              exact le_trans hle (N1 _ a ha)
            · rw [Function.update_noteq hp]
              exact N1 p a ha
          · intro hcur0 p
            by_cases hp : p = 31 - u32_leading_zeros st1.priority_map
            · rw [hp, Function.update_same]
              have hcount := N1 (31 - u32_leading_zeros st1.priority_map)
                next_id hcur0
              rw [hq, List.count_cons_self] at hcount
              exact List.count_eq_zero.mp (by omega)
            · rw [Function.update_noteq hp]
              exact EntriesLive_only_own_queue E1 hl2 (by rw [hprH]; exact hp)
          · exact mapLookup_mem_keys hl2 B1
          · by_cases hp : (0 : Nat) = 31 - u32_leading_zeros st1.priority_map
            · rw [← hp, Function.update_same]
              have hle : rest.count IDLE_TASK_ID ≤
                  (st1.queues 0).count IDLE_TASK_ID := by
                rw [hp, hq]
                exact List.count_le_count_cons _ next_id rest
              exact le_trans hle Ic1
            · rw [Function.update_noteq hp]
              exact Ic1
          · intro hcur0 t0 hlt0 hbl0
            by_cases hp : (0 : Nat) = 31 - u32_leading_zeros st1.priority_map
            · rw [← hp, Function.update_same]
              have h2 : (st1.queues 0).count IDLE_TASK_ID ≤ 2 := Ic1
              rw [hp, hq] at h2
              rw [hcur0] at h2
              rw [List.count_cons_self] at h2
              have hrest : rest.count IDLE_TASK_ID ≤ 1 := by omega
              exact hrest
            · rw [Function.update_noteq hp]
              have hnotin : IDLE_TASK_ID ∉ st1.queues 0 := by
                intro hmem
                obtain ⟨t2, hlt2, hpr2, _⟩ := E1 0 IDLE_TASK_ID hmem
                rw [← hcur0] at hlt2
                rw [hl2] at hlt2
                injection hlt2 with he2
                rw [← he2] at hpr2
                exact hp (by rw [← hpr2, hprH])
              rw [List.count_eq_zero.mpr hnotin]
              omega

/-- The C4 invariant lifted to the global state. -/
def GInv4 (g : GlobalState) : Prop :=
  ∀ st, g.sched = some st → Inv4 st

theorem unblock_task_opt_Inv4 {id : Nat} {s : Option SchedulerState}
    (h : ∀ st, s = some st → Inv4 st)
    (hcur : ∀ st, s = some st → id ≠ st.current_task) :
    ∀ st, (unblock_task id s).2 = some st → Inv4 st := by
  intro st' hst'
  cases s with
  | none => simp [unblock_task] at hst'
  | some st => exact unblock_task_Inv4 (h st rfl) (hcur st rfl) hst'

theorem block_task_opt_Inv4 {id : Nat} {s : Option SchedulerState}
    (h : ∀ st, s = some st → Inv4 st) :
    ∀ st, (block_task id s).2 = some st → Inv4 st := by
  intro st' hst'
  cases s with
  | none => simp [block_task] at hst'
  | some st => exact block_task_Inv4 (h st rfl) hst'

theorem Inv4_initState : Inv4 initState := by
  refine ⟨?_, ?_, ?_, ⟨?_, ?_⟩, ?_, ?_⟩
  · intro p id hid
    by_cases hp : p = 0
    · subst hp
      show ∃ t, mapLookup initState.tasks id = some t ∧
        t.priority = 0 ∧ t.blocked = false
      have : id = IDLE_TASK_ID := by
        have hq : initState.queues 0 = [IDLE_TASK_ID] := rfl
        rw [hq] at hid
        simpa using hid
      subst this
      exact ⟨⟨0, 0, false⟩, rfl, rfl, rfl⟩
    · exfalso
      have hq : initState.queues p = [] := by
        show Function.update (fun _ => []) 0 [IDLE_TASK_ID] p = []
        rw [Function.update_noteq hp]
      rw [hq] at hid
      exact List.not_mem_nil _ hid
  · intro p id hid
    by_cases hp : p = 0
    · subst hp
      have hq : initState.queues 0 = [IDLE_TASK_ID] := rfl
      rw [hq]
      rw [count_singleton_ne hid]
      omega
    · have hq : initState.queues p = [] := by
        show Function.update (fun _ => []) 0 [IDLE_TASK_ID] p = []
        rw [Function.update_noteq hp]
      rw [hq]
      simp
  · intro hcur
    exact absurd rfl hcur
  · intro kv hkv
    simp only [initState, List.mem_singleton] at hkv
    subst hkv
    exact le_refl _
  · exact le_refl _
  · show ([IDLE_TASK_ID] : List Nat).count IDLE_TASK_ID ≤ 2
    rw [count_singleton_self]
    omega
  · intro _ t _ _
    show ([IDLE_TASK_ID] : List Nat).count IDLE_TASK_ID ≤ 1
    rw [count_singleton_self]

theorem GInv4_step {g g' : GlobalState} (hI : GInv4 g) (hs : StepR g g') :
    GInv4 g' := by
  cases hs with
  | spawn pr sp hw =>
    intro st' hst'
    replace hst' : (spawn pr sp g.sched).2 = some st' := hst'
    cases hg : g.sched with
    | none =>
      rw [hg] at hst'
      unfold spawn at hst'
      split at hst' <;> simp_all
    | some st =>
      rw [hg] at hst'
      exact spawn_Inv4 (hI st hg) (hw st hg) hst'
  | select sp ret st hsel =>
    intro st' hst'
    replace hst' : some st = some st' := hst'
    injection hst' with hst'
    subst hst'
    cases hg : g.sched with
    | none => rw [hg] at hsel; simp [select_task] at hsel
    | some st0 =>
      rw [hg] at hsel
      exact select_task_Inv4 (hI st0 hg) hsel
  | block id =>
    intro st' hst'
    exact block_task_opt_Inv4 hI st' hst'
  | unblock id hc =>
    intro st' hst'
    exact unblock_task_opt_Inv4 hI hc st' hst'
  | remove id st hg =>
    intro st' hst'
    replace hst' : some (remove_task id st).2 = some st' := hst'
    injection hst' with hst'
    subst hst'
    exact remove_task_Inv4 (hI st hg)
  | tickStep hc =>
    intro st' hst'
    unfold handle_tick tick at hst'
    cases htm : g.timer with
    | none => rw [htm] at hst'; exact hI st' hst'
    | some tm =>
      rw [htm] at hst'
      simp only at hst'
      cases hq : tm.queue with
      | nil => rw [hq] at hst'; exact hI st' hst'
      | cons top rest =>
        rw [hq] at hst'
        by_cases hexp : top.time ≤ tm.time + 1
        · simp only [hexp, if_true] at hst'
          exact unblock_task_opt_Inv4 hI
            (fun st hst => hc tm st top rest htm hst hq hexp) st' hst'
        · simp only [hexp, if_false] at hst'
          exact hI st' hst'
  | wait time task_id =>
    intro st' hst'
    replace hst' : (wait_task_until time task_id g).2.sched = some st' := hst'
    unfold wait_task_until at hst'
    cases htm : g.timer with
    | none => rw [htm] at hst'; exact hI st' hst'
    | some tm =>
      rw [htm] at hst'
      simp only at hst'
      by_cases hle : time ≤ tm.time
      · simp only [hle, if_true] at hst'
        exact hI st' hst'
      · simp only [hle, if_false] at hst'
        by_cases hfull : tm.queue.length < MAX_TIMER_REGS
        · simp only [hfull, if_true] at hst'
          exact block_task_opt_Inv4 hI st' hst'
        · simp only [hfull, if_false] at hst'
          exact hI st' hst'

theorem GInv4_reachable {g : GlobalState} (h : ReachableR g) : GInv4 g := by
  induction h with
  | init =>
    intro st hst
    injection hst with hst
    subst hst
    exact Inv4_initState
  | step _ hs ih => exact GInv4_step ih hs

/-- C4 amended: in every scheduler state reachable from init by sequences of
the scheduler operations in which `unblock_task` (including the timer-driven
unblock inside `handle_tick`) is never applied to the currently executing
task and no `spawn` runs at the id allocator's `usize` wrap-around point, the
currently executing TaskId — whenever it is not the idle task 0 — does not
appear in any ready queue.  (The idle task itself is both current and in
ready queue 0 already in the initial state, so the unrestricted original
claim is false: see the counterexample.) -/
theorem current_not_in_ready_queues {g : GlobalState} {st : SchedulerState}
    {p : Nat} (hg : ReachableR g) (hst : g.sched = some st)
    (hcur : st.current_task ≠ IDLE_TASK_ID) :
    st.current_task ∉ st.queues p := by
  obtain ⟨_, _, hC, _, _⟩ := GInv4_reachable hg st hst
  exact hC hcur p

/-- C4 is false as stated: already in the initial state (reachable by the
empty sequence), the currently executing TaskId (idle, 0) is present in
ready queue 0; the ready queues of every later state keep a copy of idle
while idle executes. -/
theorem current_in_ready_queue_cex :
    Reachable initGlobal ∧ initGlobal.sched = some initState ∧
      initState.current_task ∈ initState.queues 0 :=
  ⟨Reachable.init, rfl, by decide⟩

/-- Witness for the amended C4: after spawning task 1 at priority 1 and one
context switch, task 1 is current and absent from every ready queue (checked
at queue 1). -/
theorem current_not_in_ready_queues_witness :
    ∃ g st, ReachableR g ∧ g.sched = some st ∧
      st.current_task = 1 ∧ st.current_task ∉ st.queues 1 := by
  obtain ⟨ret, selSt, hsel⟩ :
      ∃ ret selSt, select_task 200 ((spawn 1 100 (some initState)).2) =
        some (ret, selSt) := ⟨_, _, rfl⟩
  have hstep1 : StepR initGlobal
      { initGlobal with sched := (spawn 1 100 initGlobal.sched).2 } :=
    StepR.spawn initGlobal 1 100 (by
      intro st h
      injection h with h
      subst h
      norm_num [USIZE_MOD, initState, IDLE_TASK_ID])
  have hsel' : select_task 200
      ({ initGlobal with
        sched := (spawn 1 100 initGlobal.sched).2 } : GlobalState).sched =
      some (ret, selSt) := hsel
  have hreach : ReachableR
      { sched := some selSt, timer := initGlobal.timer } :=
    ReachableR.step (ReachableR.step ReachableR.init hstep1)
      (StepR.select _ 200 ret selSt hsel')
  injection hsel with hpair
  injection hpair with hret hst
  subst hst
  exact ⟨_, _, hreach, rfl, rfl,
    current_not_in_ready_queues hreach rfl (by decide)⟩

end Taskette